import Mathlib

/-!
# cert-backup-operator: a shallow embedding of `cmd/cert-backup-operator/main.go`

The operator lists and watches cert-manager certificates and, for every ready one,
writes the certificate and key bytes of its secret to two files whose names are
derived from namespace, name and creation timestamp.

The file first models the pieces of the Go standard library the program relies on
(`fmt.Sprintf` for the verbs used, `filepath.Join`, `os.Stat`, `os.WriteFile`), then
embeds `backup`, `getCertContent`, `backupCertIfReady` and the two loops of `main`,
and finally proves properties of them.
-/

namespace CertBackup

/-! ## Go standard library: `fmt.Sprintf` (fragment) -/

/-- The byte `'0' + d` of a decimal digit `d`. -/
def digitChar (d : Nat) : Char := Char.ofNat (48 + d)

/-- The loop of `fmt.fmtInteger` in base 10: while `u >= 10` emit `u % 10` and
divide; then emit the last digit. Digits are written right to left in front of
`acc`. The first argument bounds the number of iterations. -/
def fmtDigits : Nat → Nat → List Char → List Char
  | 0, _, acc => acc
  | fuel + 1, u, acc =>
    if u < 10 then digitChar u :: acc
    else fmtDigits fuel (u / 10) (digitChar (u % 10) :: acc)

/-- Decimal digits of an unsigned number, most significant first. -/
def decimal (u : Nat) : List Char := fmtDigits (u + 1) u []

/-- The text `fmt` prints for an integer under `%d`: `zero` is the `0` flag and
`wid` the width (`none` when absent). With the `0` flag and a width the digits are
padded with zeros up to the width, one less when a sign is printed; otherwise the
text is padded with blanks on the left. -/
def fmtInteger (zero : Bool) (wid : Option Nat) (v : Int) : List Char :=
  let negative := decide (v < 0)
  let digits := decimal v.natAbs
  let prec :=
    match zero, wid with
    | true, some w => if negative then w - 1 else w
    | _, _ => 0
  let padded := List.replicate (prec - digits.length) '0' ++ digits
  let signed := if negative then '-' :: padded else padded
  List.replicate (wid.getD 0 - signed.length) ' ' ++ signed

/-- The text `fmt` prints for a string under `%s` (blank padding on the left up
to the width; the `0` flag pads with zeros). -/
def fmtString (zero : Bool) (wid : Option Nat) (s : List Char) : List Char :=
  List.replicate (wid.getD 0 - s.length) (if zero then '0' else ' ') ++ s

/-- An operand of `Sprintf`: the program passes strings and integers (a
`time.Month` is an integer type and prints as its number under `%d`). -/
inductive Arg where
  | str (s : String)
  | int (v : Int)
deriving DecidableEq, Repr

/-- What `fmt` prints for an operand the verb does not fit: `type=value`. -/
def Arg.typed : Arg → List Char
  | .str s => "string=".data ++ s.data
  | .int v => "int=".data ++ fmtInteger false none v

/-- One verb applied to the operands left: the text printed and the operands
remaining. `%%` takes no operand; a verb without operand prints `%!v(MISSING)`;
a verb that does not fit the operand prints `%!v(type=value)`. -/
def fmtVerb (zero : Bool) (wid : Option Nat) (verb : Char) (args : List Arg) :
    List Char × List Arg :=
  if verb = '%' then (['%'], args)
  else
    match args with
    | [] => ('%' :: '!' :: verb :: "(MISSING)".data, [])
    | a :: rest =>
      match a with
      | .str s =>
        if verb = 's' ∨ verb = 'v' then (fmtString zero wid s.data, rest)
        else ('%' :: '!' :: verb :: '(' :: a.typed ++ [')'], rest)
      | .int v =>
        if verb = 'd' ∨ verb = 'v' then (fmtInteger zero wid v, rest)
        else ('%' :: '!' :: verb :: '(' :: a.typed ++ [')'], rest)

/-- Where the scanner of a format string stands. -/
inductive Scan where
  | text
  | flags (zero : Bool)
  | width (zero : Bool) (w : Nat)
deriving DecidableEq, Repr

/-- Operands left over when the format is exhausted: `%!(EXTRA type=value, ...)`. -/
def fmtExtra : List Arg → List Char
  | [] => []
  | a :: rest =>
    "%!(EXTRA ".data ++ a.typed ++ (rest.map (fun b => ", ".data ++ b.typed)).flatten ++ [')']

/-- The scanner of `fmt.Sprintf` for the fragment the program uses: literal
text, the flag `0`, a decimal width, and the verbs `%s`, `%d`, `%v`, `%%`.
(Other flags, `*` widths and precisions are outside the fragment.) -/
def doPrintf : Scan → List Char → List Arg → List Char
  | .text, [], args => fmtExtra args
  | .text, c :: fs, args =>
    if c = '%' then doPrintf (.flags false) fs args
    else c :: doPrintf .text fs args
  | .flags _, [], args => "%!(NOVERB)".data ++ fmtExtra args
  | .flags zero, c :: fs, args =>
    if c = '0' then doPrintf (.flags true) fs args
    else if c.isDigit then doPrintf (.width zero (c.toNat - 48)) fs args
    else
      let r := fmtVerb zero none c args
      r.1 ++ doPrintf .text fs r.2
  | .width _ _, [], args => "%!(NOVERB)".data ++ fmtExtra args
  | .width zero w, c :: fs, args =>
    if c.isDigit then doPrintf (.width zero (w * 10 + (c.toNat - 48))) fs args
    else
      let r := fmtVerb zero (some w) c args
      r.1 ++ doPrintf .text fs r.2

/-- Go: `fmt.Sprintf(format, args...)`. -/
def Sprintf (format : String) (args : List Arg) : String :=
  String.mk (doPrintf .text format.data args)

/-! ## Go standard library: `filepath.Join` on a Unix system -/

/-- The elements of a path: the pieces between separators `/` (always at least
one element; the elements around a leading, trailing or doubled separator are
empty). -/
def splitSlash : List Char → List (List Char)
  | [] => [[]]
  | c :: cs =>
    if c = '/' then [] :: splitSlash cs
    else
      match splitSlash cs with
      | [] => [[c]]
      | e :: es => (c :: e) :: es

/-- One element in `filepath.Clean`: `out` holds the elements kept so far, the
last one first. An empty element and `.` are dropped; `..` removes the element
before it when that is a real one, is kept in a relative path when there is
nothing to remove, and is dropped at the root; any other element is kept. -/
def cleanStep (rooted : Bool) (out : List (List Char)) (e : List Char) :
    List (List Char) :=
  if e = [] ∨ e = ['.'] then out
  else if e = ['.', '.'] then
    match out with
    | top :: rest =>
      if top ≠ ['.', '.'] then rest
      else if rooted then out else e :: out
    | [] => if rooted then out else [e]
  else e :: out

/-- Go: `filepath.Clean` on the characters of a path. -/
def cleanChars (path : List Char) : List Char :=
  if path = [] then ['.']
  else
    let rooted := decide (path.head? = some '/')
    let out := (splitSlash path).foldl (cleanStep rooted) []
    let body := List.intercalate ['/'] out.reverse
    if rooted then '/' :: body
    else if out = [] then ['.'] else body

/-- Go: `filepath.Clean(path)`. -/
def Clean (path : String) : String := String.mk (cleanChars path.data)

/-- Go: `filepath.Join(elem...)`: leading empty elements are ignored; the rest is
joined with the separator and cleaned; the result is empty when every element
is. -/
def filepathJoin (elem : List String) : String :=
  match elem.dropWhile (fun e => decide (e = "")) with
  | [] => ""
  | es => String.mk (cleanChars (List.intercalate ['/'] (es.map String.data)))

/-! ## Go standard library: errors and the file system -/

/-- A Go `error` value, as far as the program tells errors apart: it only asks
whether an error is `os.ErrNotExist`. -/
inductive GoError where
  | ErrNotExist
  | other (msg : String)
deriving DecidableEq, Repr

/-- Go: `errors.Is(err, os.ErrNotExist)` for an optional error (`none` is `nil`). -/
def isErrNotExist : Option GoError → Bool
  | some .ErrNotExist => true
  | _ => false

/-- Contents of files and secrets. -/
abbrev Bytes := List UInt8

/-- The files on disk: path and content, at most the first entry of a path counts. -/
abbrev Files := List (String × Bytes)

/-- The content stored at a path, if the path exists. -/
def readFile (files : Files) (path : String) : Option Bytes :=
  (files.find? (fun e => decide (e.1 = path))).map Prod.snd

/-- The files after `path` has been created or truncated and filled with `data`. -/
def putFile (files : Files) (path : String) (data : Bytes) : Files :=
  (path, data) :: files.filter (fun e => decide (e.1 ≠ path))

/-- The lines the program logs. -/
inductive LogLine where
  | unableToList (err : GoError)
  | savingCertificate (ns name path : String)
  | savingKey (ns name path : String)
  | backupError (name ns : String) (err : GoError)
  | noConditions (name ns : String)
  | exiting (sig : String)
deriving DecidableEq, Repr

/-- What the program does to the world around it, in order. -/
inductive Effect where
  | getCertContent (ns name : String)
  | stat (path : String)
  | writeFile (path : String) (data : Bytes) (perm : Nat)
  | watchStop
  | log (line : LogLine)
deriving DecidableEq, Repr

/-- The state the program acts on: the files on disk and the record of the
effects performed so far. -/
structure World where
  files : Files
  trace : List Effect
deriving DecidableEq, Repr

/-- The world with one more effect on record. -/
def World.record (w : World) (e : Effect) : World :=
  { w with trace := w.trace ++ [e] }

/-- How a call of `os.WriteFile` ends: it succeeds, or it fails with an error
and leaves the path untouched (`left = none`) or created with whatever was
written before the failure (`left = some bytes`). -/
inductive WriteResult where
  | ok
  | failed (err : GoError) (left : Option Bytes)
deriving DecidableEq, Repr

/-- The secret stored in the cluster: the `Data` map of a `corev1.Secret`. -/
structure Secret where
  Data : List (String × Bytes)
deriving DecidableEq, Repr

/-- Go: indexing a `map[string][]byte`: a missing key yields the nil slice. -/
def Secret.index (s : Secret) (key : String) : Bytes :=
  ((s.Data.find? (fun e => decide (e.1 = key))).map Prod.snd).getD []

/-- The environment the program cannot control: whether a write to disk
succeeds, whether the check of a path fails for a reason other than the path
not existing (`statError`: the name is too long, a parent is not a directory,
a directory may not be searched), whether a client set can be built, and what
the cluster answers to a secret lookup. Each answer may depend on everything
that happened before. Such a failure of the check comes from resolving the
path, which a write to the same path has to do as well: where the check fails
that way, the write does not succeed (`unreachable`). -/
structure Env where
  writeFile : World → String → Bytes → WriteResult
  statError : World → String → Option String
  newForConfig : World → Option GoError
  secretsGet : World → String → String → Except GoError Secret
  unreachable : ∀ w path data, statError w path ≠ none → writeFile w path data ≠ .ok

/-- Go: `os.Stat(path)`, of which the program only uses the error: an error
other than `os.ErrNotExist` when the path cannot be resolved, else `nil` when
the path exists and `os.ErrNotExist` when it does not. -/
def osStat (env : Env) (w : World) (path : String) : World × Option GoError :=
  (w.record (.stat path),
    match env.statError w path with
    | some msg => some (.other msg)
    | none => if (readFile w.files path).isSome then none else some .ErrNotExist)

/-- Go: `os.WriteFile(path, data, perm)`. -/
def osWriteFile (env : Env) (w : World) (path : String) (data : Bytes) (perm : Nat) :
    World × Option GoError :=
  let w1 := w.record (.writeFile path data perm)
  match env.writeFile w path data with
  | .ok => ({ w1 with files := putFile w1.files path data }, none)
  | .failed err none => (w1, some err)
  | .failed err (some part) => ({ w1 with files := putFile w1.files path part }, some err)

/-! ## The data model of the program -/

/-- The creation timestamp (`metav1.Time`) as the calendar fields its accessors
`Year()`, `Month()`, `Day()`, `Hour()`, `Minute()`, `Second()` return. -/
structure Time where
  Year : Int
  Month : Nat
  Day : Nat
  Hour : Nat
  Minute : Nat
  Second : Nat
deriving DecidableEq, Repr

/-- The ranges Go guarantees for the accessors of a `time.Time`. -/
def Time.valid (t : Time) : Prop :=
  1 ≤ t.Month ∧ t.Month ≤ 12 ∧ 1 ≤ t.Day ∧ t.Day ≤ 31 ∧
    t.Hour ≤ 23 ∧ t.Minute ≤ 59 ∧ t.Second ≤ 59

instance (t : Time) : Decidable t.valid := by
  unfold Time.valid; infer_instance

/-- cert-manager: `CertificateCondition` (the fields the program reads). -/
structure CertificateCondition where
  Type_ : String
  Status : String
deriving DecidableEq, Repr

/-- cert-manager: the condition type `CertificateConditionReady`. -/
def CertificateConditionReady : String := "Ready"

/-- cert-manager: `CertificateStatus`. -/
structure CertificateStatus where
  Conditions : List CertificateCondition
deriving DecidableEq, Repr

/-- cert-manager: `Certificate` (the fields the program reads). -/
structure Certificate where
  Namespace : String
  Name : String
  CreationTimestamp : Time
  Status : CertificateStatus
deriving DecidableEq, Repr

/-! ## `backup` (main.go, lines 107-147) -/

/-- The operands both file names are formatted from. -/
def fnameArgs (cert : Certificate) : List Arg :=
  [.str cert.Namespace, .str cert.Name,
   .int cert.CreationTimestamp.Year, .int cert.CreationTimestamp.Month,
   .int cert.CreationTimestamp.Day, .int cert.CreationTimestamp.Hour,
   .int cert.CreationTimestamp.Minute, .int cert.CreationTimestamp.Second]

/-- Lines 109-118. -/
def certFname (cert : Certificate) : String :=
  Sprintf "%s_%s_%04d%02d%02d_%02d%02d%02d.crt" (fnameArgs cert)

/-- Lines 119-128. -/
def certKeyFname (cert : Certificate) : String :=
  Sprintf "%s_%s_%04d%02d%02d_%02d%02d%02d.key" (fnameArgs cert)

/-- Line 130. -/
def fpathCert (cert : Certificate) (certLocation : String) : String :=
  filepathJoin [certLocation, certFname cert]

/-- Line 131. -/
def fpathKey (cert : Certificate) (certLocation : String) : String :=
  filepathJoin [certLocation, certKeyFname cert]

/-- Go: `backup(cert, certLocation, certBytes, certKeyBytes)`: the world after
the call and the error returned (`none` is `nil`). -/
def backup (env : Env) (cert : Certificate) (certLocation : String)
    (certBytes certKeyBytes : Bytes) (w : World) : World × Option GoError :=
  let pCert := fpathCert cert certLocation
  let pKey := fpathKey cert certLocation
  -- lines 132-138
  let s1 := osStat env w pCert
  let r1 : World × Option GoError :=
    if isErrNotExist s1.2 then
      osWriteFile env
        (s1.1.record (.log (.savingCertificate cert.Namespace cert.Name pCert)))
        pCert certBytes 0o700
    else (s1.1, none)
  match r1.2 with
  | some err => (r1.1, some err)
  | none =>
    -- lines 139-145
    let s2 := osStat env r1.1 pKey
    let r2 : World × Option GoError :=
      if isErrNotExist s2.2 then
        osWriteFile env
          (s2.1.record (.log (.savingKey cert.Namespace cert.Name pKey)))
          pKey certKeyBytes 0o700
      else (s2.1, none)
    match r2.2 with
    | some err => (r2.1, some err)
    | none => (r2.1, none)

/-! ## `getCertContent` (lines 167-177) and `backupCertIfReady` (lines 149-165) -/

/-- Go: `getCertContent(config, namespace, name)`. -/
def getCertContent (env : Env) (ns name : String) (w : World) :
    World × Except GoError (Bytes × Bytes) :=
  let w1 := w.record (.getCertContent ns name)
  match env.newForConfig w with
  | some err => (w1, .error err)
  | none =>
    match env.secretsGet w ns name with
    | .error err => (w1, .error err)
    | .ok secr => (w1, .ok (secr.index "tls.crt", secr.index "tls.key"))

/-- How a piece of the program ends: it returns, or it panics (`log.Panicf`, a
failed type assertion), which ends the whole process. -/
inductive Outcome where
  | returned (w : World)
  | panicked (w : World)
deriving DecidableEq, Repr

/-- The world a piece of the program leaves behind. -/
def Outcome.world : Outcome → World
  | .returned w => w
  | .panicked w => w

/-- Go: `backupCertIfReady(c, config, certLocation)`. -/
def backupCertIfReady (env : Env) (c : Certificate) (certLocation : String)
    (w : World) : Outcome :=
  if h : c.Status.Conditions.length > 0 then
    if (c.Status.Conditions.get ⟨0, h⟩).Type_ = CertificateConditionReady then
      -- certificate is ready, we can backup it
      match getCertContent env c.Namespace c.Name w with
      | (w1, .error _) => .panicked w1
      | (w1, .ok (cert, certKey)) =>
        match backup env c certLocation cert certKey w1 with
        | (w2, some err) => .returned (w2.record (.log (.backupError c.Name c.Namespace err)))
        | (w2, none) => .returned w2
    else .returned w
  else .returned (w.record (.log (.noConditions c.Name c.Namespace)))

/-! ## `main` (lines 70-105): listing, then watching until a signal arrives -/

/-- Lines 77-79: the loop over the listed certificates. -/
def backupAll (env : Env) (certLocation : String) : List Certificate → World → Outcome
  | [], w => .returned w
  | i :: items, w =>
    match backupCertIfReady env i certLocation w with
    | .returned w1 => backupAll env certLocation items w1
    | .panicked w1 => .panicked w1

/-- Lines 72-80: `listed` is what the `List` call answered. -/
def listCertificates (env : Env) (certLocation : String)
    (listed : Except GoError (List Certificate)) (w : World) : Outcome :=
  match listed with
  | .error err => .returned (w.record (.log (.unableToList err)))
  | .ok items => backupAll env certLocation items w

/-- Kubernetes: `watch.EventType`. -/
inductive EventType where
  | Added
  | Modified
  | Deleted
  | Bookmark
  | Error
deriving DecidableEq, Repr

/-- Kubernetes: the `runtime.Object` an event carries: a certificate, or an
object of another type (an `Error` event carries a `*metav1.Status`). -/
inductive RuntimeObject where
  | certificate (c : Certificate)
  | other
deriving DecidableEq, Repr

/-- Kubernetes: `watch.Event`. -/
structure Event where
  Type_ : EventType
  Object : RuntimeObject
deriving DecidableEq, Repr

/-- Lines 92-96: the body of the loop over the event channel. The type
assertion of line 92 has no second result, so it panics on an object that is
not a certificate. -/
def handleEvent (env : Env) (certLocation : String) (event : Event) (w : World) :
    Outcome :=
  match event.Object with
  | .other => .panicked w
  | .certificate cert =>
    match event.Type_ with
    | .Added => backupCertIfReady env cert certLocation w
    | .Modified => backupCertIfReady env cert certLocation w
    | _ => .returned w

/-- Lines 91-97: the loop `for event := range w.ResultChan()` over the events
delivered until the channel is closed; when the channel is closed the loop
ends and the goroutine returns. -/
def watchLoop (env : Env) (certLocation : String) : List Event → World → Outcome
  | [], w => .returned w
  | event :: events, w =>
    match handleEvent env certLocation event w with
    | .returned w1 => watchLoop env certLocation events w1
    | .panicked w1 => .panicked w1

/-- Lines 87-98: the goroutine: it panics when the watch could not be set up
(`watchErr`), else it runs the loop. -/
def watchWorker (env : Env) (certLocation : String) (watchErr : Option GoError)
    (events : List Event) (w : World) : Outcome :=
  match watchErr with
  | some _ => .panicked w
  | none => watchLoop env certLocation events w

/-- Where the process stands once the goroutine is started: the worker drains
the channel while main waits for a signal (`watching`); the worker has
returned and main still waits (`workerReturned`); a panic has ended the
process (`aborted`); main has received a signal and returned (`exited`). -/
inductive Phase where
  | watching
  | workerReturned
  | aborted
  | exited
deriving DecidableEq, Repr

/-- What can happen next to the process. -/
inductive Input where
  | event (e : Event)
  | closed
  | signal (sig : String)
deriving DecidableEq, Repr

/-- The process: its world and its phase. -/
structure Process where
  world : World
  phase : Phase
deriving DecidableEq, Repr

/-- Lines 100-104: main receives the signal, stops the watch, logs and returns. -/
def onSignal (sig : String) (w : World) : World :=
  (w.record .watchStop).record (.log (.exiting sig))

/-- One step of the process after line 84 (the watch was set up): an event is
handled by the worker (lines 92-96), the closing of the channel ends the
worker's loop (line 91), a signal wakes main (line 100). -/
def step (env : Env) (certLocation : String) (p : Process) (i : Input) : Process :=
  match p.phase, i with
  | .watching, .event e =>
    match handleEvent env certLocation e p.world with
    | .returned w => { world := w, phase := .watching }
    | .panicked w => { world := w, phase := .aborted }
  | .watching, .closed => { p with phase := .workerReturned }
  | .watching, .signal sig => { world := onSignal sig p.world, phase := .exited }
  | .workerReturned, .signal sig => { world := onSignal sig p.world, phase := .exited }
  | .workerReturned, _ => p
  | .aborted, _ => p
  | .exited, _ => p

/-- The process after a sequence of inputs. -/
def run (env : Env) (certLocation : String) (p : Process) (is : List Input) : Process :=
  is.foldl (step env certLocation) p

/-! ## Definitions used in the statements and proofs -/

/-- The number a run of decimal digits denotes, continuing from `a`. -/
def digitsValue (a : Nat) (cs : List Char) : Nat :=
  cs.foldl (fun v c => 10 * v + (c.toNat - 48)) a

/-- The integer a printed number denotes: an optional sign, then digits. -/
def parseInteger : List Char → Int
  | [] => 0
  | c :: cs => if c = '-' then - (digitsValue 0 cs : Int) else (digitsValue 0 (c :: cs) : Int)

/-- The timestamp part of a file name, as `backup` formats it:
`%04d%02d%02d_%02d%02d%02d`. -/
def stampChars (t : Time) : List Char :=
  fmtInteger true (some 4) t.Year ++ (fmtInteger true (some 2) t.Month ++
    (fmtInteger true (some 2) t.Day ++ '_' :: (fmtInteger true (some 2) t.Hour ++
      (fmtInteger true (some 2) t.Minute ++ fmtInteger true (some 2) t.Second))))

/-- A number in decimal, padded with zeros on the left to at least `width` digits. -/
def zeroPadded (width : Nat) (n : Nat) : String :=
  String.mk (List.replicate (width - (Nat.repr n).length) '0') ++ Nat.repr n

/-- The year of a file name: zero-padded to four digits; a year before year 0
is written as a minus sign and at least three digits. -/
def paddedYear (y : Int) : String :=
  if y < 0 then "-" ++ zeroPadded 3 y.natAbs else zeroPadded 4 y.natAbs

/-- The file name the specification describes:
`<ns>_<n>_<YYYY><MM><DD>_<hh><mm><ss>` followed by the suffix `.crt` or `.key`. -/
def backupName (ns n : String) (t : Time) (suffix : String) : String :=
  ns ++ "_" ++ n ++ "_" ++ paddedYear t.Year ++ zeroPadded 2 t.Month ++ zeroPadded 2 t.Day
    ++ "_" ++ zeroPadded 2 t.Hour ++ zeroPadded 2 t.Minute ++ zeroPadded 2 t.Second ++ suffix

/-- The path the specification writes as `<dir>/<name>`: the file of that name
in the directory, as `filepath.Join` resolves it. -/
def backupPath (dir ns n : String) (t : Time) (suffix : String) : String :=
  filepathJoin [dir, backupName ns n t suffix]

/-- The readiness policy of the specification: the sequence of status
conditions is not empty and the type of the condition at index 0 is the Ready
marker. -/
def isReady (c : Certificate) : Bool :=
  match c.Status.Conditions with
  | [] => false
  | first :: _ => decide (first.Type_ = CertificateConditionReady)

/-- One of the two blocks of `backup` (lines 132-138 and 139-145) on its own:
check the path; when it does not exist, log and write the data. -/
def saveIfAbsent (env : Env) (line : LogLine) (path : String) (data : Bytes) (w : World) :
    World × Option GoError :=
  if isErrNotExist (osStat env w path).2 then
    osWriteFile env ((osStat env w path).1.record (.log line)) path data 0o700
  else ((osStat env w path).1, none)

/-- The writes to disk on a record of effects, in order. -/
def writesOf (trace : List Effect) : List Effect :=
  trace.filter (fun e => match e with
    | .writeFile _ _ _ => true
    | _ => false)

/-- The writes to the given path on a record of effects, in order. -/
def writesTo (path : String) (trace : List Effect) : List Effect :=
  trace.filter (fun e => match e with
    | .writeFile p _ _ => decide (p = path)
    | _ => false)

/-- The effects on a record that touch the given path: checks and writes. -/
def touchesOf (path : String) (trace : List Effect) : List Effect :=
  trace.filter (fun e => match e with
    | .writeFile p _ _ => decide (p = path)
    | .stat p => decide (p = path)
    | _ => false)

/-- The calls of the secret resolver on a record of effects, in order. -/
def resolvesOf (trace : List Effect) : List Effect :=
  trace.filter (fun e => match e with
    | .getCertContent _ _ => true
    | _ => false)

/-! ### Concrete inputs -/

/-- The bytes of an ASCII text. -/
def asciiBytes (s : String) : Bytes := s.data.map (fun c => c.toNat.toUInt8)

/-- The ready certificate of the end-to-end scenario: namespace `prod`, name
`api`, created 2024-01-02T03:04:05. -/
def prodApi : Certificate :=
  { Namespace := "prod", Name := "api",
    CreationTimestamp := { Year := 2024, Month := 1, Day := 2, Hour := 3, Minute := 4, Second := 5 },
    Status := { Conditions := [{ Type_ := "Ready", Status := "True" }] } }

/-- A second ready certificate: namespace `staging`, name `web`, created
2024-02-03T04:05:06. -/
def stagingWeb : Certificate :=
  { Namespace := "staging", Name := "web",
    CreationTimestamp := { Year := 2024, Month := 2, Day := 3, Hour := 4, Minute := 5, Second := 6 },
    Status := { Conditions := [{ Type_ := "Ready", Status := "True" }] } }

/-- A certificate without conditions. -/
def noConditionsCert : Certificate :=
  { prodApi with Status := { Conditions := [] } }

/-- A certificate whose first condition is `Issuing` and whose second is `Ready`. -/
def readyLaterCert : Certificate :=
  { prodApi with Status := { Conditions :=
      [{ Type_ := "Issuing", Status := "True" }, { Type_ := "Ready", Status := "True" }] } }

/-- A certificate with the given namespace and name, created like `prodApi`. -/
def certNamed (ns name : String) : Certificate :=
  { prodApi with Namespace := ns, Name := name }

/-- A world with no files and no effects on record. -/
def emptyWorld : World := { files := [], trace := [] }

/-- A world in which both files of `prodApi` under `/backup` exist, with
contents that differ from the secret. -/
def oldBackupWorld : World :=
  { files := [("/backup/prod_api_20240102_030405.crt", asciiBytes "OLDCERT"),
              ("/backup/prod_api_20240102_030405.key", asciiBytes "OLDKEY")],
    trace := [] }

/-- An environment in which every write succeeds and the secret of every
certificate holds `CERT` and `KEY`. -/
def okEnv : Env :=
  { writeFile := fun _ _ _ => .ok,
    statError := fun _ _ => none,
    unreachable := fun _ _ _ h => absurd rfl h,
    newForConfig := fun _ => none,
    secretsGet := fun _ _ _ =>
      .ok { Data := [("tls.crt", asciiBytes "CERT"), ("tls.key", asciiBytes "KEY")] } }

/-- An environment in which the write of the certificate file of `prodApi`
under `/backup` fails and leaves nothing, and every other write succeeds. -/
def certWriteFailsEnv : Env :=
  { writeFile := fun _ path _ =>
      if path = "/backup/prod_api_20240102_030405.crt" then
        .failed (.other "no space left on device") none
      else .ok,
    statError := fun _ _ => none,
    unreachable := fun _ _ _ h => absurd rfl h,
    newForConfig := fun _ => none,
    secretsGet := fun _ _ _ =>
      .ok { Data := [("tls.crt", asciiBytes "CERT"), ("tls.key", asciiBytes "KEY")] } }

/-- An environment in which the write of the key file of `prodApi` under
`/backup` fails and leaves nothing, and every other write succeeds. -/
def keyWriteFailsEnv : Env :=
  { writeFile := fun _ path _ =>
      if path = "/backup/prod_api_20240102_030405.key" then
        .failed (.other "no space left on device") none
      else .ok,
    statError := fun _ _ => none,
    unreachable := fun _ _ _ h => absurd rfl h,
    newForConfig := fun _ => none,
    secretsGet := fun _ _ _ =>
      .ok { Data := [("tls.crt", asciiBytes "CERT"), ("tls.key", asciiBytes "KEY")] } }

/-- An environment in which the secret of `prod/api` cannot be fetched, the
secret of every other certificate holds `CERT` and `KEY`, and every write
succeeds. -/
def resolveFailsEnv : Env :=
  { writeFile := fun _ _ _ => .ok,
    statError := fun _ _ => none,
    unreachable := fun _ _ _ h => absurd rfl h,
    newForConfig := fun _ => none,
    secretsGet := fun _ ns name =>
      if ns = "prod" ∧ name = "api" then .error (.other "secret not found")
      else .ok { Data := [("tls.crt", asciiBytes "CERT"), ("tls.key", asciiBytes "KEY")] } }

/-- The model of `fmt.Sprintf` on inputs whose output Go documents: zero
padding, a sign inside the width, a missing operand, a verb that does not fit,
operands left over. -/
theorem Sprintf_examples :
    Sprintf "%04d|%02d|%d|%5d|%s|%d%%" [.int (-5), .int 123, .int 0, .int (-42), .str "a"]
      = "-005|123|0|  -42|a|%!d(MISSING)%" ∧
    Sprintf "%s-%d" [.int 3, .str "b"] = "%!s(int=3)-%!d(string=b)" ∧
    Sprintf "%d" [.int 1, .str "x", .int 4] = "1%!(EXTRA string=x, int=4)" := by
  decide

/-- The model of `filepath.Clean` on rows of the table Go tests it with. -/
theorem Clean_examples :
    Clean "" = "." ∧ Clean "abc/def" = "abc/def" ∧ Clean "/" = "/" ∧ Clean "abc/" = "abc" ∧
    Clean "../../" = "../.." ∧ Clean "abc//def//ghi" = "abc/def/ghi" ∧
    Clean "/./abc/def" = "/abc/def" ∧ Clean "abc/def/../ghi/../jkl" = "abc/jkl" ∧
    Clean "abc/def/../../.." = ".." ∧ Clean "/abc/def/../../.." = "/" ∧
    Clean "abc/def/../../../ghi/jkl/../../../mno" = "../../mno" ∧ Clean "/../abc" = "/abc" ∧
    Clean "abc/../../././../def" = "../../def" ∧ Clean "//abc//" = "/abc" := by
  decide

/-- The model of `filepath.Join` on two elements: an empty directory is
ignored, the rest is joined with `/` and cleaned. -/
theorem filepathJoin_examples :
    filepathJoin ["/backup", "a"] = "/backup/a" ∧ filepathJoin ["/backup/", "a"] = "/backup/a" ∧
    filepathJoin ["", "a"] = "a" ∧ filepathJoin ["", ""] = "" ∧
    filepathJoin ["/", "a"] = "/a" ∧ filepathJoin ["a", ""] = "a" ∧
    filepathJoin ["/backup", "../x"] = "/x" := by
  decide

/-! ### Facts about the printed integers -/

theorem digitChar_isDigit : ∀ d, d < 10 → (digitChar d).isDigit = true := by decide

theorem digitChar_toNat : ∀ d, d < 10 → (digitChar d).toNat - 48 = d := by decide

theorem fmtDigits_acc (fuel : Nat) : ∀ (u : Nat) (acc : List Char),
    fmtDigits fuel u acc = fmtDigits fuel u [] ++ acc := by
  induction fuel with
  | zero => intro u acc; simp [fmtDigits]
  | succ f ih =>
    intro u acc
    by_cases h : u < 10
    · simp [fmtDigits, h]
    · simp only [fmtDigits, h, if_false]
      rw [ih (u / 10) (digitChar (u % 10) :: acc), ih (u / 10) [digitChar (u % 10)]]
      simp

theorem fmtDigits_all_digits (fuel : Nat) : ∀ (u : Nat),
    ∀ c ∈ fmtDigits fuel u [], c.isDigit = true := by
  induction fuel with
  | zero => intro u c hc; simp [fmtDigits] at hc
  | succ f ih =>
    intro u c hc
    by_cases h : u < 10
    · simp [fmtDigits, h] at hc
      subst hc
      exact digitChar_isDigit u h
    · simp only [fmtDigits, h, if_false] at hc
      rw [fmtDigits_acc] at hc
      rcases List.mem_append.1 hc with h1 | h1
      · exact ih _ c h1
      · simp at h1
        subst h1
        exact digitChar_isDigit _ (Nat.mod_lt _ (by decide))

theorem digitsValue_append (a : Nat) (xs ys : List Char) :
    digitsValue a (xs ++ ys) = digitsValue (digitsValue a xs) ys := by
  simp [digitsValue, List.foldl_append]

theorem digitsValue_fmtDigits (fuel : Nat) : ∀ (u : Nat), u < 10 ^ fuel →
    digitsValue 0 (fmtDigits fuel u []) = u := by
  induction fuel with
  | zero => intro u hu; simp at hu; subst hu; simp [fmtDigits, digitsValue]
  | succ f ih =>
    intro u hu
    by_cases h : u < 10
    · simp [fmtDigits, h, digitsValue, digitChar_toNat u h]
    · simp only [fmtDigits, h, if_false]
      rw [fmtDigits_acc, digitsValue_append, ih (u / 10)]
      · simp only [digitsValue, List.foldl_cons, List.foldl_nil]
        rw [digitChar_toNat _ (Nat.mod_lt _ (by decide))]
        omega
      · rw [pow_succ] at hu
        omega

theorem decimal_ne_nil (u : Nat) : decimal u ≠ [] := by
  unfold decimal
  by_cases h : u < 10
  · simp [fmtDigits, h]
  · simp only [fmtDigits, h, if_false]
    rw [fmtDigits_acc]
    simp

theorem decimal_all_digits (u : Nat) : ∀ c ∈ decimal u, c.isDigit = true :=
  fmtDigits_all_digits _ u

theorem digitsValue_decimal (u : Nat) : digitsValue 0 (decimal u) = u := by
  have h1 : u < 10 ^ u := Nat.lt_pow_self (by decide) u
  have h2 : 10 ^ u ≤ 10 ^ (u + 1) := Nat.pow_le_pow_right (by decide) (Nat.le_succ u)
  exact digitsValue_fmtDigits _ u (lt_of_lt_of_le h1 h2)

theorem digitsValue_zeros (k : Nat) (cs : List Char) :
    digitsValue 0 (List.replicate k '0' ++ cs) = digitsValue 0 cs := by
  induction k with
  | zero => simp
  | succ k ih =>
    rw [List.replicate_succ, List.cons_append]
    have : digitsValue 0 ('0' :: (List.replicate k '0' ++ cs))
        = digitsValue 0 (List.replicate k '0' ++ cs) := by
      simp [digitsValue]
    rw [this, ih]

/-- The text of `%0wd`: an optional sign and zero-padded digits. -/
theorem fmtInteger_zero (w : Nat) (v : Int) :
    fmtInteger true (some w) v =
      if v < 0 then '-' :: (List.replicate (w - 1 - (decimal v.natAbs).length) '0' ++ decimal v.natAbs)
      else List.replicate (w - (decimal v.natAbs).length) '0' ++ decimal v.natAbs := by
  unfold fmtInteger
  by_cases h : v < 0
  · simp only [h, decide_True, if_true, Option.getD_some]
    have : w - ('-' :: (List.replicate (w - 1 - (decimal v.natAbs).length) '0'
        ++ decimal v.natAbs)).length = 0 := by
      simp only [List.length_cons, List.length_append, List.length_replicate]
      omega
    rw [this]; simp
  · simp only [h, decide_False, if_false, Option.getD_some]
    have : w - (List.replicate (w - (decimal v.natAbs).length) '0'
        ++ decimal v.natAbs).length = 0 := by
      simp only [List.length_append, List.length_replicate]
      omega
    simp only [Bool.false_eq_true, if_false]
    rw [this]; simp

theorem fmtInteger_all (w : Nat) (v : Int) :
    ∀ c ∈ fmtInteger true (some w) v, c.isDigit = true ∨ c = '-' := by
  intro c hc
  rw [fmtInteger_zero] at hc
  have hz : ∀ k, ∀ c ∈ List.replicate k '0' ++ decimal v.natAbs, c.isDigit = true := by
    intro k c hc
    rcases List.mem_append.1 hc with h1 | h1
    · rw [List.mem_replicate] at h1
      rw [h1.2]; decide
    · exact decimal_all_digits _ c h1
  split at hc
  · rcases List.mem_cons.1 hc with h1 | h1
    · exact Or.inr h1
    · exact Or.inl (hz _ c h1)
  · exact Or.inl (hz _ c hc)

theorem parseInteger_fmtInteger (w : Nat) (v : Int) :
    parseInteger (fmtInteger true (some w) v) = v := by
  rw [fmtInteger_zero]
  by_cases h : v < 0
  · simp only [h, if_true, parseInteger]
    rw [digitsValue_zeros, digitsValue_decimal]
    omega
  · simp only [h, if_false]
    have hne : List.replicate (w - (decimal v.natAbs).length) '0' ++ decimal v.natAbs ≠ [] := by
      simp [decimal_ne_nil]
    have hd : ∀ c ∈ List.replicate (w - (decimal v.natAbs).length) '0' ++ decimal v.natAbs,
        c.isDigit = true := by
      intro c hc
      rcases List.mem_append.1 hc with h1 | h1
      · rw [List.mem_replicate] at h1
        rw [h1.2]; decide
      · exact decimal_all_digits _ c h1
    have hv : digitsValue 0 (List.replicate (w - (decimal v.natAbs).length) '0'
        ++ decimal v.natAbs) = v.natAbs := by
      rw [digitsValue_zeros, digitsValue_decimal]
    revert hne hd hv
    generalize List.replicate (w - (decimal v.natAbs).length) '0' ++ decimal v.natAbs = l
    intro hne hd hv
    cases l with
    | nil => exact absurd rfl hne
    | cons c cs =>
      have hc : c ≠ '-' := by
        intro hc
        have := hd c (List.mem_cons_self _ _)
        rw [hc] at this
        exact absurd this (by decide)
      simp only [parseInteger, hc, if_false]
      rw [hv]
      omega

theorem fmtInteger_inj (w : Nat) (a b : Int)
    (h : fmtInteger true (some w) a = fmtInteger true (some w) b) : a = b := by
  have := congrArg parseInteger h
  rwa [parseInteger_fmtInteger, parseInteger_fmtInteger] at this

theorem fmtInteger_two_length : ∀ n : Nat, n < 100 →
    (fmtInteger true (some 2) (n : Int)).length = 2 := by
  decide

/-! ### Facts about `filepath.Join` -/

theorem splitSlash_ne_nil (p : List Char) : splitSlash p ≠ [] := by
  cases p with
  | nil => simp [splitSlash]
  | cons c cs =>
    unfold splitSlash
    split
    · simp
    · split <;> simp

theorem splitSlash_noSlash (s : List Char) (hs : '/' ∉ s) : splitSlash s = [s] := by
  induction s with
  | nil => rfl
  | cons c cs ih =>
    have hc : c ≠ '/' := fun h => hs (by simp [h])
    have hcs : '/' ∉ cs := fun h => hs (List.mem_cons_of_mem _ h)
    simp [splitSlash, hc, ih hcs]

/-- Text without a separator appended to a path only extends its last element. -/
theorem splitSlash_append (r : List Char) :
    ∃ init last, splitSlash r = init ++ [last] ∧
      ∀ s, '/' ∉ s → splitSlash (r ++ s) = init ++ [last ++ s] := by
  induction r with
  | nil =>
    refine ⟨[], [], rfl, ?_⟩
    intro s hs
    simpa using splitSlash_noSlash s hs
  | cons c cs ih =>
    obtain ⟨init, last, h1, h2⟩ := ih
    by_cases hc : c = '/'
    · refine ⟨[] :: init, last, ?_, ?_⟩
      · simp [splitSlash, hc, h1]
      · intro s hs
        simp [splitSlash, hc, h2 s hs]
    · cases init with
      | nil =>
        refine ⟨[], c :: last, ?_, ?_⟩
        · simp [splitSlash, hc, h1]
        · intro s hs
          have := h2 s hs
          simp only [List.nil_append] at this
          simp [splitSlash, hc, this]
      | cons e es =>
        refine ⟨(c :: e) :: es, last, ?_, ?_⟩
        · simp [splitSlash, hc, h1]
        · intro s hs
          have := h2 s hs
          simp only [List.cons_append] at this
          simp [splitSlash, hc, this]

theorem cleanStep_real (rooted : Bool) (out : List (List Char)) (e : List Char)
    (he : 3 ≤ e.length) : cleanStep rooted out e = e :: out := by
  have h1 : e ≠ [] := by intro h; rw [h] at he; simp at he
  have h2 : e ≠ ['.'] := by intro h; rw [h] at he; simp at he
  have h3 : e ≠ ['.', '.'] := by intro h; rw [h] at he; simp at he
  simp [cleanStep, h1, h2, h3]

theorem intercalate_snoc (sep : List Char) (xs : List (List Char)) (y : List Char) :
    List.intercalate sep (xs ++ [y]) =
      (if xs = [] then [] else List.intercalate sep xs ++ sep) ++ y := by
  induction xs with
  | nil => simp [List.intercalate]
  | cons x xs ih =>
    cases xs with
    | nil => simp [List.intercalate, List.intersperse]
    | cons x2 xs2 =>
      simp only [List.intercalate] at ih ⊢
      simp only [List.cons_append, List.intersperse, List.flatten_cons] at ih ⊢
      simp at ih
      simp [ih]

/-- Cleaning a path that ends in text without a separator (three characters or
more) keeps that text at the end, behind a prefix that only depends on what
comes before it. -/
theorem cleanChars_append (r : List Char) :
    ∃ pre, ∀ s, '/' ∉ s → 3 ≤ s.length → cleanChars (r ++ s) = pre ++ s := by
  obtain ⟨init, last, -, h2⟩ := splitSlash_append r
  let rooted := decide (r.head? = some '/')
  let out := init.foldl (cleanStep rooted) []
  refine ⟨(if rooted then ['/'] else []) ++
    ((if out.reverse = [] then [] else List.intercalate ['/'] out.reverse ++ ['/']) ++ last), ?_⟩
  intro s hs hlen
  have hne : r ++ s ≠ [] := by
    intro h
    have := congrArg List.length h
    rw [List.length_append, List.length_nil] at this
    omega
  have hroot : decide ((r ++ s).head? = some '/') = rooted := by
    cases r with
    | nil =>
      cases s with
      | nil => simp at hlen
      | cons c cs =>
        have hc : c ≠ '/' := fun h => hs (by simp [h])
        simp [rooted, hc]
    | cons c cs => simp [rooted]
  have hstep : cleanStep rooted out (last ++ s) = (last ++ s) :: out :=
    cleanStep_real _ _ _ (by simp; omega)
  unfold cleanChars
  simp only [hne, if_false, hroot, h2 s hs, List.foldl_append, List.foldl_cons, List.foldl_nil]
  rw [show List.foldl (cleanStep rooted) [] init = out from rfl, hstep]
  simp only [List.reverse_cons, intercalate_snoc]
  by_cases hr : rooted = true
  · simp [hr]
  · simp [hr]

/-! ### Facts about the file names -/

theorem certFname_data (c : Certificate) :
    (certFname c).data = c.Namespace.data ++ '_' :: (c.Name.data ++ '_' ::
      (stampChars c.CreationTimestamp ++ ['.', 'c', 'r', 't'])) := by
  simp [certFname, Sprintf, fnameArgs, doPrintf, fmtVerb, fmtString, Char.isDigit, fmtExtra,
    stampChars]

theorem certKeyFname_data (c : Certificate) :
    (certKeyFname c).data = c.Namespace.data ++ '_' :: (c.Name.data ++ '_' ::
      (stampChars c.CreationTimestamp ++ ['.', 'k', 'e', 'y'])) := by
  simp [certKeyFname, Sprintf, fnameArgs, doPrintf, fmtVerb, fmtString, Char.isDigit, fmtExtra,
    stampChars]

theorem digitChar_eq : ∀ d, d < 10 → digitChar d = Nat.digitChar d := by decide

theorem fmtDigits_eq_toDigitsCore (fuel : Nat) : ∀ (u : Nat) (acc : List Char),
    fmtDigits fuel u acc = Nat.toDigitsCore 10 fuel u acc := by
  induction fuel with
  | zero => intro u acc; rfl
  | succ f ih =>
    intro u acc
    by_cases h : u < 10
    · have h0 : u / 10 = 0 := Nat.div_eq_of_lt h
      have h1 : u % 10 = u := Nat.mod_eq_of_lt h
      simp [fmtDigits, Nat.toDigitsCore, h, h0, h1, digitChar_eq u h]
    · have h0 : u / 10 ≠ 0 := by omega
      simp only [fmtDigits, Nat.toDigitsCore, h, h0, if_false]
      rw [ih, digitChar_eq _ (Nat.mod_lt _ (by decide))]

theorem decimal_eq_repr (u : Nat) : decimal u = (Nat.repr u).data := by
  simp [decimal, Nat.repr, Nat.toDigits, fmtDigits_eq_toDigitsCore, List.asString]

theorem zeroPadded_data (w n : Nat) :
    (zeroPadded w n).data = List.replicate (w - (decimal n).length) '0' ++ decimal n := by
  unfold zeroPadded
  rw [String.data_append, decimal_eq_repr]
  rfl

theorem fmtInteger_nat (w n : Nat) :
    fmtInteger true (some w) (n : Int) = (zeroPadded w n).data := by
  rw [fmtInteger_zero, zeroPadded_data]
  have h : ¬ ((n : Int) < 0) := by omega
  rw [if_neg h, Int.natAbs_ofNat]

theorem fmtInteger_year (y : Int) :
    fmtInteger true (some 4) y = (paddedYear y).data := by
  rw [fmtInteger_zero]
  unfold paddedYear
  by_cases h : y < 0
  · rw [if_pos h, if_pos h, String.data_append, zeroPadded_data]
    rfl
  · rw [if_neg h, if_neg h, zeroPadded_data]

theorem certFname_eq (c : Certificate) :
    certFname c = backupName c.Namespace c.Name c.CreationTimestamp ".crt" := by
  apply String.ext
  rw [certFname_data]
  simp [backupName, stampChars, fmtInteger_nat, fmtInteger_year]

theorem certKeyFname_eq (c : Certificate) :
    certKeyFname c = backupName c.Namespace c.Name c.CreationTimestamp ".key" := by
  apply String.ext
  rw [certKeyFname_data]
  simp [backupName, stampChars, fmtInteger_nat, fmtInteger_year]

theorem filepathJoin_append (dir : String) (x : List Char) :
    ∃ pre, ∀ s, '/' ∉ s → 3 ≤ s.length →
      (filepathJoin [dir, String.mk (x ++ s)]).data = pre ++ s := by
  by_cases hd : dir = ""
  · obtain ⟨pre, hpre⟩ := cleanChars_append x
    refine ⟨pre, ?_⟩
    intro s hs hlen
    have hne : String.mk (x ++ s) ≠ "" := by
      intro h
      have h2 : x ++ s = [] := congrArg String.data h
      have h3 : s = [] := (List.append_eq_nil.1 h2).2
      rw [h3] at hlen
      simp at hlen
    simp [filepathJoin, hd, hne, List.dropWhile, List.intercalate, hpre s hs hlen]
  · obtain ⟨pre, hpre⟩ := cleanChars_append (dir.data ++ '/' :: x)
    refine ⟨pre, ?_⟩
    intro s hs hlen
    have := hpre s hs hlen
    simp only [List.append_assoc, List.cons_append] at this
    simp [filepathJoin, hd, List.dropWhile, List.intercalate, List.intersperse, this]

theorem stampChars_no_slash (t : Time) : '/' ∉ stampChars t := by
  intro h
  have key : ∀ w v, '/' ∉ fmtInteger true (some w) v := by
    intro w v hm
    rcases fmtInteger_all w v _ hm with h1 | h1
    · exact absurd h1 (by decide)
    · exact absurd h1 (by decide)
  simp only [stampChars, List.mem_append, List.mem_cons] at h
  rcases h with h | h | h | h | h | h | h
  · exact key _ _ h
  · exact key _ _ h
  · exact key _ _ h
  · exact absurd h (by decide)
  · exact key _ _ h
  · exact key _ _ h
  · exact key _ _ h

theorem stampChars_length (t : Time) : 3 ≤ (stampChars t).length := by
  have h : ∀ w v, 1 ≤ (fmtInteger true (some w) v).length := by
    intro w v
    rw [fmtInteger_zero]
    have := List.length_pos.2 (decimal_ne_nil v.natAbs)
    split
    · simp
    · simp only [List.length_append, List.length_replicate]
      omega
  have h1 := h 4 t.Year
  have h2 := h 2 t.Month
  have h3 := h 2 t.Day
  simp only [stampChars, List.length_append, List.length_cons]
  omega

/-- Both paths of a certificate end in the timestamp and the suffix, behind a
prefix that only depends on the directory, the namespace and the name. -/
theorem fpath_shape (dir ns name : String) :
    ∃ pre : List Char, ∀ c : Certificate, c.Namespace = ns → c.Name = name →
      (fpathCert c dir).data = pre ++ (stampChars c.CreationTimestamp ++ ['.', 'c', 'r', 't']) ∧
      (fpathKey c dir).data = pre ++ (stampChars c.CreationTimestamp ++ ['.', 'k', 'e', 'y']) := by
  obtain ⟨pre, hpre⟩ := filepathJoin_append dir (ns.data ++ '_' :: (name.data ++ ['_']))
  refine ⟨pre, ?_⟩
  intro c h1 h2
  have hs : ∀ e : List Char, '/' ∉ e → '/' ∉ stampChars c.CreationTimestamp ++ e := by
    intro e he hm
    rcases List.mem_append.1 hm with h | h
    · exact stampChars_no_slash _ h
    · exact he h
  have hl : ∀ e : List Char, 3 ≤ (stampChars c.CreationTimestamp ++ e).length := by
    intro e
    have := stampChars_length c.CreationTimestamp
    simp only [List.length_append]
    omega
  constructor
  · have := hpre _ (hs ['.', 'c', 'r', 't'] (by decide)) (hl _)
    rw [← this]
    unfold fpathCert
    have hf : certFname c = String.mk (ns.data ++ '_' :: (name.data ++ ['_'])
        ++ (stampChars c.CreationTimestamp ++ ['.', 'c', 'r', 't'])) := by
      apply String.ext
      rw [certFname_data, h1, h2]
      simp
    rw [hf]
  · have := hpre _ (hs ['.', 'k', 'e', 'y'] (by decide)) (hl _)
    rw [← this]
    unfold fpathKey
    have hf : certKeyFname c = String.mk (ns.data ++ '_' :: (name.data ++ ['_'])
        ++ (stampChars c.CreationTimestamp ++ ['.', 'k', 'e', 'y'])) := by
      apply String.ext
      rw [certKeyFname_data, h1, h2]
      simp
    rw [hf]

/-- The two paths of one certificate differ. -/
theorem fpathCert_ne_fpathKey (c : Certificate) (dir : String) :
    fpathCert c dir ≠ fpathKey c dir := by
  obtain ⟨pre, h⟩ := fpath_shape dir c.Namespace c.Name
  obtain ⟨h1, h2⟩ := h c rfl rfl
  intro heq
  have := congrArg String.data heq
  rw [h1, h2] at this
  have := List.append_cancel_left (List.append_cancel_left this)
  exact absurd this (by decide)

theorem splitSlash_slash (a b : List Char) :
    splitSlash (a ++ '/' :: b) = splitSlash a ++ splitSlash b := by
  induction a with
  | nil => simp [splitSlash]
  | cons c cs ih =>
    by_cases hc : c = '/'
    · simp [splitSlash, hc, ih]
    · have hne := splitSlash_ne_nil cs
      cases hs : splitSlash cs with
      | nil => exact absurd hs hne
      | cons e es =>
        have ih2 : splitSlash (cs ++ '/' :: b) = e :: (es ++ splitSlash b) := by
          rw [ih, hs]; rfl
        show splitSlash (c :: (cs ++ '/' :: b)) = splitSlash (c :: cs) ++ splitSlash b
        simp only [splitSlash, hc, if_false, ih2, hs, List.cons_append]

/-- A name without separator joined to a directory: the cleaned directory, a
separator and the name (when the cleaned directory is neither the root nor
the current directory). -/
theorem filepathJoin_name (dir f : String) (hd : dir ≠ "") (hf : '/' ∉ f.data)
    (hlen : 3 ≤ f.data.length) (h1 : Clean dir ≠ "/") (h2 : Clean dir ≠ ".") :
    filepathJoin [dir, f] = Clean dir ++ "/" ++ f := by
  have hdd : dir.data ≠ [] := fun h => hd (String.ext h)
  have hj : filepathJoin [dir, f] = String.mk (cleanChars (dir.data ++ '/' :: f.data)) := by
    simp [filepathJoin, hd, List.dropWhile, List.intercalate, List.intersperse]
  rw [hj]
  apply String.ext
  rw [String.data_append, String.data_append]
  show cleanChars (dir.data ++ '/' :: f.data) = cleanChars dir.data ++ ['/'] ++ f.data
  have g1 : cleanChars dir.data ≠ ['/'] := fun h => h1 (String.ext h)
  have g2 : cleanChars dir.data ≠ ['.'] := fun h => h2 (String.ext h)
  have hne : dir.data ++ '/' :: f.data ≠ [] := by simp
  have hroot : (dir.data ++ '/' :: f.data).head? = dir.data.head? := by
    cases hdata : dir.data with
    | nil => exact absurd hdata hdd
    | cons c cs => rfl
  have hstep : ∀ out, cleanStep (decide (dir.data.head? = some '/')) out f.data = f.data :: out :=
    fun out => cleanStep_real _ _ _ hlen
  revert g1 g2
  unfold cleanChars
  simp only [hne, hdd, if_false, hroot, splitSlash_slash, splitSlash_noSlash f.data hf,
    List.foldl_append, List.foldl_cons, List.foldl_nil, hstep, List.reverse_cons,
    intercalate_snoc]
  generalize List.foldl (cleanStep (decide (dir.data.head? = some '/'))) [] (splitSlash dir.data)
    = out
  by_cases hr : decide (dir.data.head? = some '/') = true
  · simp only [hr, if_true]
    by_cases ho : out = []
    · subst ho
      simp [List.intercalate]
    · have ho2 : out.reverse ≠ [] := by simpa using ho
      simp [ho2]
  · simp only [hr, if_false]
    by_cases ho : out = []
    · subst ho
      simp
    · have ho2 : out.reverse ≠ [] := by simpa using ho
      simp [ho, ho2]

theorem backupName_data (c : Certificate) (suffix : String) :
    (backupName c.Namespace c.Name c.CreationTimestamp suffix).data =
      c.Namespace.data ++ '_' :: (c.Name.data ++ '_' ::
        (stampChars c.CreationTimestamp ++ suffix.data)) := by
  simp [backupName, stampChars, fmtInteger_nat, fmtInteger_year]

/-- In a clean directory that is neither the root nor the current directory,
and for a namespace and a name without separator, the path of a backup file is
the directory, a separator and the file name. -/
theorem backupPath_plain (dir : String) (c : Certificate) (suffix : String)
    (h1 : '/' ∉ c.Namespace.data) (h2 : '/' ∉ c.Name.data) (h3 : '/' ∉ suffix.data)
    (hd : dir ≠ "") (hc : Clean dir = dir) (hr : dir ≠ "/") (hp : dir ≠ ".") :
    backupPath dir c.Namespace c.Name c.CreationTimestamp suffix =
      dir ++ "/" ++ backupName c.Namespace c.Name c.CreationTimestamp suffix := by
  unfold backupPath
  rw [filepathJoin_name dir _ hd ?_ ?_ (by rw [hc]; exact hr) (by rw [hc]; exact hp), hc]
  · rw [backupName_data]
    intro hm
    simp only [List.mem_append, List.mem_cons] at hm
    rcases hm with h | h | h | h | h | h
    · exact h1 h
    · exact absurd h (by decide)
    · exact h2 h
    · exact absurd h (by decide)
    · exact stampChars_no_slash _ h
    · exact h3 h
  · rw [backupName_data]
    have := stampChars_length c.CreationTimestamp
    simp only [List.length_append, List.length_cons]
    omega

/-! ### Facts about the file system -/

theorem readFile_filter_ne (files : Files) (p q : String) (h : q ≠ p) :
    readFile (files.filter (fun e => decide (e.1 ≠ p))) q = readFile files q := by
  induction files with
  | nil => rfl
  | cons e es ih =>
    obtain ⟨a, b⟩ := e
    unfold readFile at ih ⊢
    by_cases h1 : a = p
    · subst h1
      have h2 : ¬ a = q := fun h3 => h h3.symm
      have h3 : List.filter (fun e : String × Bytes => decide (e.1 ≠ a)) ((a, b) :: es)
          = List.filter (fun e => decide (e.1 ≠ a)) es := by
        simp [List.filter_cons]
      have h4 : List.find? (fun e : String × Bytes => decide (e.1 = q)) ((a, b) :: es)
          = List.find? (fun e => decide (e.1 = q)) es := by
        simp [List.find?_cons, h2]
      rw [h3, h4]
      exact ih
    · have h3 : List.filter (fun e : String × Bytes => decide (e.1 ≠ p)) ((a, b) :: es)
          = (a, b) :: List.filter (fun e => decide (e.1 ≠ p)) es := by
        simp [List.filter_cons, h1]
      rw [h3]
      by_cases h2 : a = q
      · simp [List.find?_cons, h2]
      · have h4 : ∀ l : List (String × Bytes),
            List.find? (fun e : String × Bytes => decide (e.1 = q)) ((a, b) :: l)
            = List.find? (fun e => decide (e.1 = q)) l := by
          intro l
          simp [List.find?_cons, h2]
        rw [h4, h4]
        exact ih

theorem readFile_putFile (files : Files) (p q : String) (data : Bytes) :
    readFile (putFile files p data) q = if q = p then some data else readFile files q := by
  by_cases h : q = p
  · subst h
    simp [readFile, putFile]
  · have h2 : ¬ p = q := fun h3 => h h3.symm
    rw [if_neg h, ← readFile_filter_ne files p q h]
    simp [readFile, putFile, h2]

theorem fpathCert_eq (c : Certificate) (dir : String) :
    fpathCert c dir = backupPath dir c.Namespace c.Name c.CreationTimestamp ".crt" := by
  rw [fpathCert, certFname_eq, backupPath]

theorem fpathKey_eq (c : Certificate) (dir : String) :
    fpathKey c dir = backupPath dir c.Namespace c.Name c.CreationTimestamp ".key" := by
  rw [fpathKey, certKeyFname_eq, backupPath]

theorem writesOf_append (a b : List Effect) : writesOf (a ++ b) = writesOf a ++ writesOf b := by
  simp [writesOf]

/-! ### C1: what `backup` writes when nothing is there yet -/

/-- C1. For every certificate, base directory and pair of byte sequences: when
neither target path exists and both writes succeed, `backup` returns no error
and creates exactly two files: `<dir>/<ns>_<n>_<YYYY><MM><DD>_<hh><mm><ss>.crt`
holding the certificate bytes and the same name with suffix `.key` holding the
key bytes (every other path reads as before, and the two writes are the only
ones performed). The path `<dir>/<name>` is the one `filepath.Join` gives; for
a clean directory other than `/` and `.` and a namespace and name without `/`
it is literally the directory, `/` and the name. -/
theorem backup_creates_both_files (env : Env) (cert : Certificate) (certLocation : String)
    (certBytes certKeyBytes : Bytes) (w : World)
    (hCert : readFile w.files (backupPath certLocation cert.Namespace cert.Name
      cert.CreationTimestamp ".crt") = none)
    (hKey : readFile w.files (backupPath certLocation cert.Namespace cert.Name
      cert.CreationTimestamp ".key") = none)
    (hwCert : ∀ w1, env.writeFile w1 (backupPath certLocation cert.Namespace cert.Name
      cert.CreationTimestamp ".crt") certBytes = .ok)
    (hwKey : ∀ w1, env.writeFile w1 (backupPath certLocation cert.Namespace cert.Name
      cert.CreationTimestamp ".key") certKeyBytes = .ok) :
    (backup env cert certLocation certBytes certKeyBytes w).2 = none ∧
    (∀ p, readFile (backup env cert certLocation certBytes certKeyBytes w).1.files p =
      if p = backupPath certLocation cert.Namespace cert.Name cert.CreationTimestamp ".crt"
      then some certBytes
      else if p = backupPath certLocation cert.Namespace cert.Name cert.CreationTimestamp ".key"
      then some certKeyBytes
      else readFile w.files p) ∧
    writesOf (backup env cert certLocation certBytes certKeyBytes w).1.trace =
      writesOf w.trace ++
        [.writeFile (backupPath certLocation cert.Namespace cert.Name
            cert.CreationTimestamp ".crt") certBytes 0o700,
         .writeFile (backupPath certLocation cert.Namespace cert.Name
            cert.CreationTimestamp ".key") certKeyBytes 0o700] ∧
    ('/' ∉ cert.Namespace.data → '/' ∉ cert.Name.data → certLocation ≠ "" →
      Clean certLocation = certLocation → certLocation ≠ "/" → certLocation ≠ "." →
      backupPath certLocation cert.Namespace cert.Name cert.CreationTimestamp ".crt" =
        certLocation ++ "/" ++
          backupName cert.Namespace cert.Name cert.CreationTimestamp ".crt" ∧
      backupPath certLocation cert.Namespace cert.Name cert.CreationTimestamp ".key" =
        certLocation ++ "/" ++
          backupName cert.Namespace cert.Name cert.CreationTimestamp ".key") := by
  have hplain : '/' ∉ cert.Namespace.data → '/' ∉ cert.Name.data → certLocation ≠ "" →
      Clean certLocation = certLocation → certLocation ≠ "/" → certLocation ≠ "." →
      backupPath certLocation cert.Namespace cert.Name cert.CreationTimestamp ".crt" =
        certLocation ++ "/" ++
          backupName cert.Namespace cert.Name cert.CreationTimestamp ".crt" ∧
      backupPath certLocation cert.Namespace cert.Name cert.CreationTimestamp ".key" =
        certLocation ++ "/" ++
          backupName cert.Namespace cert.Name cert.CreationTimestamp ".key" :=
    fun h1 h2 hd hc hr hp =>
      ⟨backupPath_plain certLocation cert ".crt" h1 h2 (by decide) hd hc hr hp,
       backupPath_plain certLocation cert ".key" h1 h2 (by decide) hd hc hr hp⟩
  have hne := fpathCert_ne_fpathKey cert certLocation
  rw [fpathCert_eq, fpathKey_eq] at hne
  have hsCert : ∀ w1, env.statError w1 (backupPath certLocation cert.Namespace cert.Name
      cert.CreationTimestamp ".crt") = none := by
    intro w1
    by_contra hs
    exact env.unreachable w1 _ certBytes hs (hwCert w1)
  have hsKey : ∀ w1, env.statError w1 (backupPath certLocation cert.Namespace cert.Name
      cert.CreationTimestamp ".key") = none := by
    intro w1
    by_contra hs
    exact env.unreachable w1 _ certKeyBytes hs (hwKey w1)
  have hk2 : readFile (putFile w.files (backupPath certLocation cert.Namespace cert.Name
      cert.CreationTimestamp ".crt") certBytes) (backupPath certLocation cert.Namespace cert.Name
      cert.CreationTimestamp ".key") = none := by
    rw [readFile_putFile, if_neg (Ne.symm hne), hKey]
  simp only [backup, osStat, osWriteFile, World.record, fpathCert_eq, fpathKey_eq, hCert, hKey,
    hwCert, hwKey, hsCert, hsKey, hk2, isErrNotExist, Option.isSome_none, Bool.false_eq_true,
    if_false, if_true]
  refine ⟨trivial, ?_, ?_, hplain⟩
  · intro p
    simp only [readFile_putFile]
    by_cases h1 : p = backupPath certLocation cert.Namespace cert.Name cert.CreationTimestamp ".crt"
    · simp [h1, hne]
    · simp [h1]
  · simp [writesOf]

/-- C1 at the scenario of the specification: namespace `prod`, name `api`,
created 2024-01-02T03:04:05, bytes `CERT` and `KEY`, directory `/backup`. -/
theorem backup_creates_both_files_witness :
    (backup okEnv prodApi "/backup" (asciiBytes "CERT") (asciiBytes "KEY") emptyWorld).2 = none ∧
    readFile (backup okEnv prodApi "/backup" (asciiBytes "CERT") (asciiBytes "KEY")
      emptyWorld).1.files "/backup/prod_api_20240102_030405.crt" = some (asciiBytes "CERT") ∧
    readFile (backup okEnv prodApi "/backup" (asciiBytes "CERT") (asciiBytes "KEY")
      emptyWorld).1.files "/backup/prod_api_20240102_030405.key" = some (asciiBytes "KEY") ∧
    writesOf (backup okEnv prodApi "/backup" (asciiBytes "CERT") (asciiBytes "KEY")
      emptyWorld).1.trace =
      [.writeFile "/backup/prod_api_20240102_030405.crt" (asciiBytes "CERT") 0o700,
       .writeFile "/backup/prod_api_20240102_030405.key" (asciiBytes "KEY") 0o700] := by
  have h := backup_creates_both_files okEnv prodApi "/backup" (asciiBytes "CERT")
    (asciiBytes "KEY") emptyWorld (by decide) (by decide) (fun _ => rfl) (fun _ => rfl)
  have e1 : backupPath "/backup" prodApi.Namespace prodApi.Name prodApi.CreationTimestamp ".crt"
      = "/backup/prod_api_20240102_030405.crt" := by decide
  have e2 : backupPath "/backup" prodApi.Namespace prodApi.Name prodApi.CreationTimestamp ".key"
      = "/backup/prod_api_20240102_030405.key" := by decide
  rw [e1, e2] at h
  refine ⟨h.1, ?_, ?_, ?_⟩
  · rw [h.2.1]; rfl
  · rw [h.2.1]; rfl
  · rw [h.2.2.1]; rfl

/-! ### The two blocks of `backup` -/

theorem backup_eq (env : Env) (cert : Certificate) (certLocation : String)
    (certBytes certKeyBytes : Bytes) (w : World) :
    backup env cert certLocation certBytes certKeyBytes w =
      match (saveIfAbsent env (.savingCertificate cert.Namespace cert.Name
          (fpathCert cert certLocation)) (fpathCert cert certLocation) certBytes w).2 with
      | some err => ((saveIfAbsent env (.savingCertificate cert.Namespace cert.Name
          (fpathCert cert certLocation)) (fpathCert cert certLocation) certBytes w).1, some err)
      | none => saveIfAbsent env (.savingKey cert.Namespace cert.Name
          (fpathKey cert certLocation)) (fpathKey cert certLocation) certKeyBytes
          (saveIfAbsent env (.savingCertificate cert.Namespace cert.Name
            (fpathCert cert certLocation)) (fpathCert cert certLocation) certBytes w).1 := by
  unfold backup saveIfAbsent
  simp only []
  generalize (if isErrNotExist (osStat env w (fpathCert cert certLocation)).2 = true then
      osWriteFile env ((osStat env w (fpathCert cert certLocation)).1.record
        (.log (.savingCertificate cert.Namespace cert.Name (fpathCert cert certLocation))))
        (fpathCert cert certLocation) certBytes 448
    else ((osStat env w (fpathCert cert certLocation)).1, none)) = r1
  obtain ⟨w1, e1⟩ := r1
  cases e1 with
  | some err => rfl
  | none =>
    simp only []
    generalize (if isErrNotExist (osStat env w1 (fpathKey cert certLocation)).2 = true then
        osWriteFile env ((osStat env w1 (fpathKey cert certLocation)).1.record
          (.log (.savingKey cert.Namespace cert.Name (fpathKey cert certLocation))))
          (fpathKey cert certLocation) certKeyBytes 448
      else ((osStat env w1 (fpathKey cert certLocation)).1, none)) = r2
    obtain ⟨w2, e2⟩ := r2
    cases e2 <;> rfl

/-- The check of a path that exists never answers `os.ErrNotExist`. -/
theorem osStat_present (env : Env) (w : World) (path : String)
    (h : (readFile w.files path).isSome = true) :
    isErrNotExist (osStat env w path).2 = false := by
  unfold osStat
  cases env.statError w path <;> simp [h, isErrNotExist]

/-- A check that fails for another reason does not answer `os.ErrNotExist`. -/
theorem osStat_statError (env : Env) (w : World) (path : String) (msg : String)
    (h : env.statError w path = some msg) :
    isErrNotExist (osStat env w path).2 = false := by
  simp [osStat, h, isErrNotExist]

/-- A block whose check does not answer `os.ErrNotExist` only checks. -/
theorem saveIfAbsent_skip (env : Env) (line : LogLine) (path : String) (data : Bytes)
    (w : World) (h : isErrNotExist (osStat env w path).2 = false) :
    saveIfAbsent env line path data w = (w.record (.stat path), none) := by
  simp [saveIfAbsent, h]
  rfl

theorem saveIfAbsent_present (env : Env) (line : LogLine) (path : String) (data : Bytes)
    (w : World) (h : (readFile w.files path).isSome = true) :
    saveIfAbsent env line path data w = (w.record (.stat path), none) :=
  saveIfAbsent_skip env line path data w (osStat_present env w path h)

theorem osWriteFile_other (env : Env) (w : World) (path : String) (data : Bytes) (perm : Nat)
    (q : String) (hq : q ≠ path) :
    readFile (osWriteFile env w path data perm).1.files q = readFile w.files q := by
  unfold osWriteFile
  split <;> simp [World.record, readFile_putFile, hq]

theorem osWriteFile_trace (env : Env) (w : World) (path : String) (data : Bytes) (perm : Nat) :
    (osWriteFile env w path data perm).1.trace = w.trace ++ [.writeFile path data perm] := by
  unfold osWriteFile
  split <;> simp [World.record]

/-- A block leaves every other path as it was. -/
theorem saveIfAbsent_other (env : Env) (line : LogLine) (path : String) (data : Bytes)
    (w : World) (q : String) (hq : q ≠ path) :
    readFile (saveIfAbsent env line path data w).1.files q = readFile w.files q := by
  unfold saveIfAbsent
  split
  · rw [osWriteFile_other _ _ _ _ _ _ hq]; rfl
  · rfl

/-- A block never changes a file that exists. -/
theorem saveIfAbsent_keeps (env : Env) (line : LogLine) (path : String) (data : Bytes)
    (w : World) (q : String) (old : Bytes) (hq : readFile w.files q = some old) :
    readFile (saveIfAbsent env line path data w).1.files q = some old := by
  by_cases h : q = path
  · subst h
    rw [saveIfAbsent_present _ _ _ _ _ (by simp [hq])]
    exact hq
  · rw [saveIfAbsent_other _ _ _ _ _ _ h, hq]

/-- The effects of a block: the check, and the log line and the write when the
check answered `os.ErrNotExist`. -/
theorem saveIfAbsent_trace (env : Env) (line : LogLine) (path : String) (data : Bytes)
    (w : World) :
    (saveIfAbsent env line path data w).1.trace =
      w.trace ++ .stat path ::
        (if isErrNotExist (osStat env w path).2 = true then
          [.log line, .writeFile path data 0o700]
         else []) := by
  cases hp : isErrNotExist (osStat env w path).2 with
  | false => rw [saveIfAbsent_skip _ _ _ _ _ hp]; simp [World.record]
  | true =>
    simp only [saveIfAbsent, hp, if_true, osWriteFile_trace]
    simp [World.record, osStat]

/-! ### C2, C3, C7: repeated calls, files already there, failing writes -/

theorem backup_both_present (env : Env) (cert : Certificate) (certLocation : String)
    (certBytes certKeyBytes : Bytes) (w : World)
    (hc : (readFile w.files (fpathCert cert certLocation)).isSome = true)
    (hk : (readFile w.files (fpathKey cert certLocation)).isSome = true) :
    backup env cert certLocation certBytes certKeyBytes w =
      ((w.record (.stat (fpathCert cert certLocation))).record
        (.stat (fpathKey cert certLocation)), none) := by
  rw [backup_eq, saveIfAbsent_present _ _ _ _ _ hc]
  simp only []
  rw [saveIfAbsent_present _ _ _ _ _ (by simpa [World.record] using hk)]

theorem backup_keeps (env : Env) (cert : Certificate) (certLocation : String)
    (certBytes certKeyBytes : Bytes) (w : World) (p : String) (old : Bytes)
    (hp : readFile w.files p = some old) :
    readFile (backup env cert certLocation certBytes certKeyBytes w).1.files p = some old := by
  rw [backup_eq]
  have h1 := saveIfAbsent_keeps env (.savingCertificate cert.Namespace cert.Name
      (fpathCert cert certLocation)) (fpathCert cert certLocation) certBytes w p old hp
  split
  · exact h1
  · exact saveIfAbsent_keeps _ _ _ _ _ _ _ h1

theorem writesTo_append (p : String) (a b : List Effect) :
    writesTo p (a ++ b) = writesTo p a ++ writesTo p b := by
  simp [writesTo]

theorem touchesOf_append (p : String) (a b : List Effect) :
    touchesOf p (a ++ b) = touchesOf p a ++ touchesOf p b := by
  simp [touchesOf]

/-- The writes of a block to a path other than its own, or to its own path when
that exists: none. -/
theorem saveIfAbsent_writesTo (env : Env) (line : LogLine) (path : String) (data : Bytes)
    (w : World) (q : String)
    (h : q ≠ path ∨ (readFile w.files path).isSome = true) :
    writesTo q (saveIfAbsent env line path data w).1.trace = writesTo q w.trace := by
  rw [saveIfAbsent_trace, writesTo_append]
  rcases h with h | h
  · have h2 : ¬ path = q := fun h3 => h h3.symm
    split <;> simp [writesTo, h2]
  · simp [osStat_present env w path h, writesTo]

theorem backup_writesTo_cert (env : Env) (cert : Certificate) (certLocation : String)
    (certBytes certKeyBytes : Bytes) (w : World)
    (hc : (readFile w.files (fpathCert cert certLocation)).isSome = true) :
    writesTo (fpathCert cert certLocation)
      (backup env cert certLocation certBytes certKeyBytes w).1.trace =
    writesTo (fpathCert cert certLocation) w.trace := by
  rw [backup_eq]
  have h1 := saveIfAbsent_writesTo env (.savingCertificate cert.Namespace cert.Name
      (fpathCert cert certLocation)) (fpathCert cert certLocation) certBytes w
      (fpathCert cert certLocation) (Or.inr hc)
  split
  · exact h1
  · rw [saveIfAbsent_writesTo _ _ _ _ _ _ (Or.inl (fpathCert_ne_fpathKey cert certLocation)), h1]

theorem backup_writesTo_key (env : Env) (cert : Certificate) (certLocation : String)
    (certBytes certKeyBytes : Bytes) (w : World)
    (hk : (readFile w.files (fpathKey cert certLocation)).isSome = true) :
    writesTo (fpathKey cert certLocation)
      (backup env cert certLocation certBytes certKeyBytes w).1.trace =
    writesTo (fpathKey cert certLocation) w.trace := by
  rw [backup_eq]
  have hne : fpathKey cert certLocation ≠ fpathCert cert certLocation :=
    Ne.symm (fpathCert_ne_fpathKey cert certLocation)
  have h1 := saveIfAbsent_writesTo env (.savingCertificate cert.Namespace cert.Name
      (fpathCert cert certLocation)) (fpathCert cert certLocation) certBytes w
      (fpathKey cert certLocation) (Or.inl hne)
  split
  · exact h1
  · rw [saveIfAbsent_writesTo _ _ _ _ _ _ (Or.inr ?_), h1]
    obtain ⟨old, hold⟩ := Option.isSome_iff_exists.1 hk
    rw [saveIfAbsent_keeps _ _ _ _ _ _ _ hold]
    rfl

/-- C3. Backup files are never changed or deleted: for every state and every
call of `backup`, whatever the bytes and whether the call succeeds or fails,
every path that exists before the call exists after it with the same content;
a target path that is present is not written to, and when both are present
the call returns no error and writes nothing. -/
theorem backup_keeps_existing_files (env : Env) (cert : Certificate) (certLocation : String)
    (certBytes certKeyBytes : Bytes) (w : World) :
    (∀ p old, readFile w.files p = some old →
      readFile (backup env cert certLocation certBytes certKeyBytes w).1.files p = some old) ∧
    ((readFile w.files (backupPath certLocation cert.Namespace cert.Name
        cert.CreationTimestamp ".crt")).isSome = true →
      writesTo (backupPath certLocation cert.Namespace cert.Name cert.CreationTimestamp ".crt")
        (backup env cert certLocation certBytes certKeyBytes w).1.trace =
      writesTo (backupPath certLocation cert.Namespace cert.Name cert.CreationTimestamp ".crt")
        w.trace) ∧
    ((readFile w.files (backupPath certLocation cert.Namespace cert.Name
        cert.CreationTimestamp ".key")).isSome = true →
      writesTo (backupPath certLocation cert.Namespace cert.Name cert.CreationTimestamp ".key")
        (backup env cert certLocation certBytes certKeyBytes w).1.trace =
      writesTo (backupPath certLocation cert.Namespace cert.Name cert.CreationTimestamp ".key")
        w.trace) ∧
    ((readFile w.files (backupPath certLocation cert.Namespace cert.Name
        cert.CreationTimestamp ".crt")).isSome = true →
      (readFile w.files (backupPath certLocation cert.Namespace cert.Name
        cert.CreationTimestamp ".key")).isSome = true →
      (backup env cert certLocation certBytes certKeyBytes w).2 = none ∧
      writesOf (backup env cert certLocation certBytes certKeyBytes w).1.trace =
        writesOf w.trace) := by
  rw [← fpathCert_eq, ← fpathKey_eq]
  refine ⟨fun p old hp => backup_keeps env cert certLocation certBytes certKeyBytes w p old hp,
    backup_writesTo_cert env cert certLocation certBytes certKeyBytes w,
    backup_writesTo_key env cert certLocation certBytes certKeyBytes w, ?_⟩
  intro hc hk
  rw [backup_both_present env cert certLocation certBytes certKeyBytes w hc hk]
  refine ⟨rfl, ?_⟩
  simp [World.record, writesOf]

/-- C3 at a concrete input: both files of `prodApi` exist with other contents;
a call with the bytes `CERT` and `KEY` leaves them as they are. -/
theorem backup_keeps_existing_files_witness :
    readFile (backup okEnv prodApi "/backup" (asciiBytes "CERT") (asciiBytes "KEY")
      oldBackupWorld).1.files "/backup/prod_api_20240102_030405.crt"
      = some (asciiBytes "OLDCERT") ∧
    readFile (backup okEnv prodApi "/backup" (asciiBytes "CERT") (asciiBytes "KEY")
      oldBackupWorld).1.files "/backup/prod_api_20240102_030405.key"
      = some (asciiBytes "OLDKEY") ∧
    (backup okEnv prodApi "/backup" (asciiBytes "CERT") (asciiBytes "KEY")
      oldBackupWorld).2 = none := by
  have h := backup_keeps_existing_files okEnv prodApi "/backup" (asciiBytes "CERT")
    (asciiBytes "KEY") oldBackupWorld
  exact ⟨h.1 _ _ (by decide), h.1 _ _ (by decide), (h.2.2.2 (by decide) (by decide)).1⟩

/-! ### C7: one of the two writes fails -/

/-- C7, as the code has it. Both target paths are absent and the existence
check of either answers so (it does not fail for another reason). When the
write of the certificate file succeeds and the write of the key file fails,
`backup` returns that error and the certificate file is on disk with its bytes
(no rollback). When the write of the certificate file fails, `backup` returns
that error at once: the key path is neither checked nor written and stays
absent. -/
theorem backup_partial_failure (env : Env) (cert : Certificate) (certLocation : String)
    (certBytes certKeyBytes : Bytes) (w : World)
    (hCert : readFile w.files (backupPath certLocation cert.Namespace cert.Name
      cert.CreationTimestamp ".crt") = none)
    (hKey : readFile w.files (backupPath certLocation cert.Namespace cert.Name
      cert.CreationTimestamp ".key") = none)
    (hsCert : ∀ w1, env.statError w1 (backupPath certLocation cert.Namespace cert.Name
      cert.CreationTimestamp ".crt") = none)
    (hsKey : ∀ w1, env.statError w1 (backupPath certLocation cert.Namespace cert.Name
      cert.CreationTimestamp ".key") = none) :
    (∀ err left,
      (∀ w1, env.writeFile w1 (backupPath certLocation cert.Namespace cert.Name
        cert.CreationTimestamp ".crt") certBytes = .ok) →
      (∀ w1, env.writeFile w1 (backupPath certLocation cert.Namespace cert.Name
        cert.CreationTimestamp ".key") certKeyBytes = .failed err left) →
      (backup env cert certLocation certBytes certKeyBytes w).2 = some err ∧
      readFile (backup env cert certLocation certBytes certKeyBytes w).1.files
        (backupPath certLocation cert.Namespace cert.Name cert.CreationTimestamp ".crt")
        = some certBytes) ∧
    (∀ err left,
      (∀ w1, env.writeFile w1 (backupPath certLocation cert.Namespace cert.Name
        cert.CreationTimestamp ".crt") certBytes = .failed err left) →
      (backup env cert certLocation certBytes certKeyBytes w).2 = some err ∧
      readFile (backup env cert certLocation certBytes certKeyBytes w).1.files
        (backupPath certLocation cert.Namespace cert.Name cert.CreationTimestamp ".key")
        = none ∧
      touchesOf (backupPath certLocation cert.Namespace cert.Name cert.CreationTimestamp ".key")
        (backup env cert certLocation certBytes certKeyBytes w).1.trace =
      touchesOf (backupPath certLocation cert.Namespace cert.Name cert.CreationTimestamp ".key")
        w.trace) := by
  have hne := fpathCert_ne_fpathKey cert certLocation
  rw [fpathCert_eq, fpathKey_eq] at hne
  have hne2 : ¬ backupPath certLocation cert.Namespace cert.Name cert.CreationTimestamp ".key"
      = backupPath certLocation cert.Namespace cert.Name cert.CreationTimestamp ".crt" :=
    fun h => hne h.symm
  constructor
  · intro err left hw1 hw2
    have hk2 : readFile (putFile w.files (backupPath certLocation cert.Namespace cert.Name
        cert.CreationTimestamp ".crt") certBytes) (backupPath certLocation cert.Namespace
        cert.Name cert.CreationTimestamp ".key") = none := by
      rw [readFile_putFile, if_neg hne2, hKey]
    cases left with
    | none =>
      simp [backup, osStat, osWriteFile, World.record, fpathCert_eq, fpathKey_eq, hCert, hsCert, hsKey,
        hw1, hw2, hk2, isErrNotExist, readFile_putFile]
    | some part =>
      simp [backup, osStat, osWriteFile, World.record, fpathCert_eq, fpathKey_eq, hCert, hsCert, hsKey,
        hw1, hw2, hk2, isErrNotExist, readFile_putFile, hne]
  · intro err left hw1
    cases left with
    | none =>
      simp [backup, osStat, osWriteFile, World.record, fpathCert_eq, fpathKey_eq, hCert, hsCert, hsKey,
        hKey, hw1, isErrNotExist, touchesOf, hne]
    | some part =>
      simp [backup, osStat, osWriteFile, World.record, fpathCert_eq, fpathKey_eq, hCert, hsCert, hsKey,
        hKey, hw1, isErrNotExist, touchesOf, hne, readFile_putFile, hne2]

/-- C7 at a concrete input: the key write of `prodApi` fails after the
certificate write succeeded; the error is returned and the certificate file
stays on disk. -/
theorem backup_partial_failure_witness :
    (backup keyWriteFailsEnv prodApi "/backup" (asciiBytes "CERT") (asciiBytes "KEY")
      emptyWorld).2 = some (.other "no space left on device") ∧
    readFile (backup keyWriteFailsEnv prodApi "/backup" (asciiBytes "CERT") (asciiBytes "KEY")
      emptyWorld).1.files "/backup/prod_api_20240102_030405.crt" = some (asciiBytes "CERT") := by
  have h := (backup_partial_failure keyWriteFailsEnv prodApi "/backup" (asciiBytes "CERT")
    (asciiBytes "KEY") emptyWorld (by decide) (by decide) (fun _ => rfl) (fun _ => rfl)).1
    (.other "no space left on device") none (fun _ => rfl) (fun _ => rfl)
  have e1 : backupPath "/backup" prodApi.Namespace prodApi.Name prodApi.CreationTimestamp ".crt"
      = "/backup/prod_api_20240102_030405.crt" := by decide
  rw [e1] at h
  exact h

/-- C7 as stated fails in the other direction: neither file of `prodApi`
exists, the write of the certificate file fails and the write of the key file
would succeed; `backup` reports the failure, but the key file is not on disk
afterwards: its path was never checked and never written. -/
theorem backup_cert_write_failure_skips_key :
    readFile emptyWorld.files "/backup/prod_api_20240102_030405.crt" = none ∧
    readFile emptyWorld.files "/backup/prod_api_20240102_030405.key" = none ∧
    certWriteFailsEnv.writeFile emptyWorld "/backup/prod_api_20240102_030405.key"
      (asciiBytes "KEY") = .ok ∧
    backup certWriteFailsEnv prodApi "/backup" (asciiBytes "CERT") (asciiBytes "KEY") emptyWorld =
      ({ files := [],
         trace := [.stat "/backup/prod_api_20240102_030405.crt",
                   .log (.savingCertificate "prod" "api" "/backup/prod_api_20240102_030405.crt"),
                   .writeFile "/backup/prod_api_20240102_030405.crt" (asciiBytes "CERT") 0o700] },
        some (.other "no space left on device")) ∧
    readFile (backup certWriteFailsEnv prodApi "/backup" (asciiBytes "CERT") (asciiBytes "KEY")
      emptyWorld).1.files "/backup/prod_api_20240102_030405.key" ≠ some (asciiBytes "KEY") := by
  decide

/-! ### C4: the readiness gate -/

theorem resolvesOf_append (a b : List Effect) :
    resolvesOf (a ++ b) = resolvesOf a ++ resolvesOf b := by
  simp [resolvesOf]

theorem saveIfAbsent_resolvesOf (env : Env) (line : LogLine) (path : String) (data : Bytes)
    (w : World) :
    resolvesOf (saveIfAbsent env line path data w).1.trace = resolvesOf w.trace := by
  rw [saveIfAbsent_trace, resolvesOf_append]
  split <;> simp [resolvesOf]

/-- `backup` never calls the secret resolver. -/
theorem backup_resolvesOf (env : Env) (cert : Certificate) (certLocation : String)
    (certBytes certKeyBytes : Bytes) (w : World) :
    resolvesOf (backup env cert certLocation certBytes certKeyBytes w).1.trace =
      resolvesOf w.trace := by
  rw [backup_eq]
  split
  · exact saveIfAbsent_resolvesOf _ _ _ _ _
  · rw [saveIfAbsent_resolvesOf, saveIfAbsent_resolvesOf]

/-- The first effect of `backup` is the check of the certificate path. -/
theorem backup_trace_stat (env : Env) (cert : Certificate) (certLocation : String)
    (certBytes certKeyBytes : Bytes) (w : World) :
    ∃ more, (backup env cert certLocation certBytes certKeyBytes w).1.trace =
      w.trace ++ .stat (fpathCert cert certLocation) :: more := by
  rw [backup_eq]
  split
  · exact ⟨_, saveIfAbsent_trace _ _ _ _ _⟩
  · rw [saveIfAbsent_trace, saveIfAbsent_trace]
    exact ⟨_, by rw [List.append_assoc]; rfl⟩

theorem getCertContent_world (env : Env) (ns name : String) (w : World) :
    (getCertContent env ns name w).1 = w.record (.getCertContent ns name) := by
  unfold getCertContent
  split
  · rfl
  · split <;> rfl

theorem isReady_iff (c : Certificate) :
    isReady c = true ↔
      ∃ h : c.Status.Conditions.length > 0,
        (c.Status.Conditions.get ⟨0, h⟩).Type_ = CertificateConditionReady := by
  unfold isReady
  cases hc : c.Status.Conditions with
  | nil => simp
  | cons first rest => simp

/-- What `backupCertIfReady` does with a certificate that is not ready. -/
theorem backupCertIfReady_not_ready (env : Env) (c : Certificate) (certLocation : String)
    (w : World) (h : isReady c = false) :
    backupCertIfReady env c certLocation w =
      .returned (if c.Status.Conditions.length > 0 then w
        else w.record (.log (.noConditions c.Name c.Namespace))) := by
  unfold backupCertIfReady
  by_cases h1 : c.Status.Conditions.length > 0
  · have h2 : ¬ (c.Status.Conditions.get ⟨0, h1⟩).Type_ = CertificateConditionReady := by
      intro h3
      have := (isReady_iff c).2 ⟨h1, h3⟩
      rw [h] at this
      exact absurd this (by decide)
    simp only [h1, dif_pos, h2, if_false, if_true]
  · simp only [h1, dif_neg, not_false_eq_true, if_false]

/-- A ready certificate whose secret cannot be resolved: `backupCertIfReady`
panics right after the call of the resolver. -/
theorem backupCertIfReady_resolve_failed (env : Env) (c : Certificate) (certLocation : String)
    (w : World) (h : isReady c = true) (e : GoError)
    (hr : (getCertContent env c.Namespace c.Name w).2 = .error e) :
    backupCertIfReady env c certLocation w =
      .panicked (w.record (.getCertContent c.Namespace c.Name)) := by
  obtain ⟨h1, h2⟩ := (isReady_iff c).1 h
  have hw := getCertContent_world env c.Namespace c.Name w
  unfold backupCertIfReady
  simp only [h1, dif_pos, h2, if_true]
  revert hr hw
  generalize getCertContent env c.Namespace c.Name w = r
  obtain ⟨w1, res⟩ := r
  intro hr hw
  simp only at hr hw
  subst hr hw
  rfl

/-- A ready certificate whose secret resolves: `backupCertIfReady` runs `backup`
with the resolved bytes and returns; an error of `backup` is only logged. -/
theorem backupCertIfReady_resolved (env : Env) (c : Certificate) (certLocation : String)
    (w : World) (h : isReady c = true) (cert certKey : Bytes)
    (hr : (getCertContent env c.Namespace c.Name w).2 = .ok (cert, certKey)) :
    backupCertIfReady env c certLocation w =
      .returned
        (match (backup env c certLocation cert certKey
            (w.record (.getCertContent c.Namespace c.Name))).2 with
         | some err => (backup env c certLocation cert certKey
            (w.record (.getCertContent c.Namespace c.Name))).1.record
              (.log (.backupError c.Name c.Namespace err))
         | none => (backup env c certLocation cert certKey
            (w.record (.getCertContent c.Namespace c.Name))).1) := by
  obtain ⟨h1, h2⟩ := (isReady_iff c).1 h
  have hw := getCertContent_world env c.Namespace c.Name w
  unfold backupCertIfReady
  simp only [h1, dif_pos, h2, if_true]
  revert hr hw
  generalize getCertContent env c.Namespace c.Name w = r
  obtain ⟨w1, res⟩ := r
  intro hr hw
  simp only at hr hw
  subst hr hw
  simp only []
  generalize backup env c certLocation cert certKey
    (w.record (.getCertContent c.Namespace c.Name)) = r2
  obtain ⟨w2, e2⟩ := r2
  cases e2 <;> rfl

/-- C4. Readiness gate: for every certificate record, `backupCertIfReady` calls
the secret resolver (once, for that record) if and only if the condition
sequence is not empty and the type of the condition at index 0 is the Ready
marker, whatever the later entries; when it does and the resolver returns the
bytes, `backup` is run with them; a record that is not ready (no conditions, or
Ready only at a later index) reaches neither the resolver nor the disk: the
call returns with at most the line `doesn't have conditions` logged. -/
theorem backupCertIfReady_gate (env : Env) (c : Certificate) (certLocation : String)
    (w : World) :
    (isReady c = true ↔
      ∃ first rest, c.Status.Conditions = first :: rest ∧
        first.Type_ = CertificateConditionReady) ∧
    resolvesOf (backupCertIfReady env c certLocation w).world.trace =
      resolvesOf w.trace ++
        (if isReady c = true then [.getCertContent c.Namespace c.Name] else []) ∧
    (isReady c = true → ∀ cert certKey,
      (getCertContent env c.Namespace c.Name w).2 = .ok (cert, certKey) →
      (backupCertIfReady env c certLocation w).world.files =
        (backup env c certLocation cert certKey
          (w.record (.getCertContent c.Namespace c.Name))).1.files ∧
      ∃ more, (backupCertIfReady env c certLocation w).world.trace =
        w.trace ++ .getCertContent c.Namespace c.Name ::
          .stat (backupPath certLocation c.Namespace c.Name c.CreationTimestamp ".crt") ::
            more) ∧
    (isReady c = false →
      backupCertIfReady env c certLocation w =
        .returned (if c.Status.Conditions.length > 0 then w
          else w.record (.log (.noConditions c.Name c.Namespace)))) := by
  refine ⟨?_, ?_, ?_, backupCertIfReady_not_ready env c certLocation w⟩
  · unfold isReady
    cases hc : c.Status.Conditions with
    | nil => simp
    | cons first rest => simp
  · cases h : isReady c with
    | false =>
      rw [backupCertIfReady_not_ready env c certLocation w h]
      split <;> simp [Outcome.world, World.record, resolvesOf]
    | true =>
      cases hr : (getCertContent env c.Namespace c.Name w).2 with
      | error e =>
        rw [backupCertIfReady_resolve_failed env c certLocation w h e hr]
        simp [Outcome.world, World.record, resolvesOf]
      | ok bytes =>
        obtain ⟨cert, certKey⟩ := bytes
        rw [backupCertIfReady_resolved env c certLocation w h cert certKey hr]
        simp only [Outcome.world, if_true]
        have hb := backup_resolvesOf env c certLocation cert certKey
          (w.record (.getCertContent c.Namespace c.Name))
        split
        · simp only [World.record, resolvesOf_append] at hb ⊢
          rw [hb]
          simp [resolvesOf]
        · simp only [World.record, resolvesOf_append] at hb ⊢
          rw [hb]
          simp [resolvesOf]
  · intro h cert certKey hr
    rw [backupCertIfReady_resolved env c certLocation w h cert certKey hr]
    obtain ⟨more, hm⟩ := backup_trace_stat env c certLocation cert certKey
      (w.record (.getCertContent c.Namespace c.Name))
    rw [fpathCert_eq] at hm
    simp only [Outcome.world]
    split
    · rename_i err _
      refine ⟨rfl, more ++ [.log (.backupError c.Name c.Namespace err)], ?_⟩
      simp only [World.record] at hm ⊢
      rw [hm]
      simp
    · refine ⟨rfl, more, ?_⟩
      simp only [World.record] at hm ⊢
      rw [hm]
      simp

/-- C4 at concrete inputs: a certificate that reports Ready only in its second
condition, and one without conditions, reach neither the resolver nor the
disk; the ready certificate `prodApi` is resolved once. -/
theorem backupCertIfReady_gate_witness :
    backupCertIfReady okEnv readyLaterCert "/backup" emptyWorld = .returned emptyWorld ∧
    backupCertIfReady okEnv noConditionsCert "/backup" emptyWorld =
      .returned { files := [], trace := [.log (.noConditions "api" "prod")] } ∧
    resolvesOf (backupCertIfReady okEnv prodApi "/backup" emptyWorld).world.trace =
      [.getCertContent "prod" "api"] :=
  ⟨(backupCertIfReady_gate okEnv readyLaterCert "/backup" emptyWorld).2.2.2 (by decide),
   (backupCertIfReady_gate okEnv noConditionsCert "/backup" emptyWorld).2.2.2 (by decide),
   (backupCertIfReady_gate okEnv prodApi "/backup" emptyWorld).2.1⟩

/-! ### C6, C8, C9: the two loops of `main` -/

theorem backupAll_append (env : Env) (certLocation : String) (before after : List Certificate) :
    ∀ (w w1 : World), backupAll env certLocation before w = .returned w1 →
      backupAll env certLocation (before ++ after) w = backupAll env certLocation after w1 := by
  induction before with
  | nil =>
    intro w w1 h
    simp only [backupAll, Outcome.returned.injEq] at h
    rw [List.nil_append, h]
  | cons c cs ih =>
    intro w w1 h
    simp only [List.cons_append, backupAll] at h ⊢
    cases hc : backupCertIfReady env c certLocation w with
    | returned w2 =>
      rw [hc] at h
      simp only at h ⊢
      exact ih w2 w1 h
    | panicked w2 =>
      rw [hc] at h
      simp at h

theorem watchLoop_append (env : Env) (certLocation : String) (before after : List Event) :
    ∀ (w w1 : World), watchLoop env certLocation before w = .returned w1 →
      watchLoop env certLocation (before ++ after) w = watchLoop env certLocation after w1 := by
  induction before with
  | nil =>
    intro w w1 h
    simp only [watchLoop, Outcome.returned.injEq] at h
    rw [List.nil_append, h]
  | cons c cs ih =>
    intro w w1 h
    simp only [List.cons_append, watchLoop] at h ⊢
    cases hc : handleEvent env certLocation c w with
    | returned w2 =>
      rw [hc] at h
      simp only at h ⊢
      exact ih w2 w1 h
    | panicked w2 =>
      rw [hc] at h
      simp at h

/-- C6, as the code has it. A failed resolution is not isolated: when the
secret of a ready certificate cannot be resolved, `backupCertIfReady` panics
(`log.Panicf`), so the loop over the listed certificates and the loop over the
watch events both end there, with the call of the resolver as the last effect:
the certificates observed before are handled, the failing one and every later
one are neither resolved nor backed up. -/
theorem resolve_failure_aborts (env : Env) (certLocation : String) (c : Certificate)
    (w1 : World) (e : GoError)
    (hready : isReady c = true)
    (hfail : (getCertContent env c.Namespace c.Name w1).2 = .error e) :
    (∀ before after w, backupAll env certLocation before w = .returned w1 →
      backupAll env certLocation (before ++ c :: after) w =
        .panicked (w1.record (.getCertContent c.Namespace c.Name))) ∧
    (∀ before after w t, t = EventType.Added ∨ t = EventType.Modified →
      watchLoop env certLocation before w = .returned w1 →
      watchLoop env certLocation (before ++ { Type_ := t, Object := .certificate c } :: after) w =
        .panicked (w1.record (.getCertContent c.Namespace c.Name))) := by
  have hp := backupCertIfReady_resolve_failed env c certLocation w1 hready e hfail
  constructor
  · intro before after w hb
    rw [backupAll_append env certLocation before _ w w1 hb]
    simp only [backupAll, hp]
  · intro before after w t ht hb
    rw [watchLoop_append env certLocation before _ w w1 hb]
    rcases ht with ht | ht <;> subst ht <;> simp only [watchLoop, handleEvent, hp]

/-- C6 at a concrete input: the secret of `prod/api` cannot be fetched; the
list `[prodApi, stagingWeb]` ends in a panic after the one call of the
resolver. -/
theorem resolve_failure_aborts_witness :
    backupAll resolveFailsEnv "/backup" ([] ++ prodApi :: [stagingWeb]) emptyWorld =
      .panicked (emptyWorld.record (.getCertContent prodApi.Namespace prodApi.Name)) :=
  (resolve_failure_aborts resolveFailsEnv "/backup" prodApi emptyWorld
    (.other "secret not found") (by decide) rfl).1 [] [stagingWeb] emptyWorld
    (by decide)

/-- C6 as stated fails: `prodApi` and `stagingWeb` are ready, the secret of
`prodApi` cannot be resolved while the secret of `stagingWeb` resolves; both
loops end in a panic at `prodApi`, and `stagingWeb`, observed after it, is
neither resolved nor backed up. -/
theorem resolve_failure_not_isolated :
    isReady prodApi = true ∧ isReady stagingWeb = true ∧
    (getCertContent resolveFailsEnv "staging" "web" emptyWorld).2 =
      .ok (asciiBytes "CERT", asciiBytes "KEY") ∧
    backupAll resolveFailsEnv "/backup" [prodApi, stagingWeb] emptyWorld =
      .panicked { files := [], trace := [.getCertContent "prod" "api"] } ∧
    watchLoop resolveFailsEnv "/backup"
      [{ Type_ := .Added, Object := .certificate prodApi },
       { Type_ := .Added, Object := .certificate stagingWeb }] emptyWorld =
      .panicked { files := [], trace := [.getCertContent "prod" "api"] } ∧
    readFile (backupAll resolveFailsEnv "/backup" [prodApi, stagingWeb] emptyWorld).world.files
      "/backup/staging_web_20240203_040506.crt" = none :=
  ⟨by decide, by decide, rfl, by decide, by decide, by decide⟩

/-- C8, as the code has it. A watch event that carries a certificate and
whose kind is neither Added nor Modified (a deletion, a bookmark) is ignored:
handling it changes nothing at all (no secret is resolved, no file is touched)
and the worker goes on to the next event of the stream. -/
theorem other_events_ignored (env : Env) (certLocation : String) (event : Event)
    (c : Certificate) (events : List Event) (w : World)
    (hobj : event.Object = .certificate c)
    (hAdded : event.Type_ ≠ .Added) (hModified : event.Type_ ≠ .Modified) :
    handleEvent env certLocation event w = .returned w ∧
    watchLoop env certLocation (event :: events) w = watchLoop env certLocation events w ∧
    step env certLocation { world := w, phase := .watching } (.event event) =
      { world := w, phase := .watching } := by
  have h : handleEvent env certLocation event w = .returned w := by
    unfold handleEvent
    rw [hobj]
    cases ht : event.Type_ with
    | Added => exact absurd ht hAdded
    | Modified => exact absurd ht hModified
    | Deleted => rfl
    | Bookmark => rfl
    | Error => rfl
  refine ⟨h, ?_, ?_⟩
  · simp only [watchLoop, h]
  · simp only [step, h]

/-- C8 at a concrete input: the deletion of `prodApi` leaves its backup files
as they are, and the event after it is handled. -/
theorem other_events_ignored_witness :
    handleEvent okEnv "/backup" { Type_ := .Deleted, Object := .certificate prodApi }
      oldBackupWorld = .returned oldBackupWorld ∧
    watchLoop okEnv "/backup"
      ({ Type_ := .Deleted, Object := .certificate prodApi } ::
        [{ Type_ := .Added, Object := .certificate stagingWeb }]) oldBackupWorld =
      watchLoop okEnv "/backup" [{ Type_ := .Added, Object := .certificate stagingWeb }]
        oldBackupWorld :=
  ⟨(other_events_ignored okEnv "/backup" { Type_ := .Deleted, Object := .certificate prodApi }
      prodApi [] oldBackupWorld rfl (by decide) (by decide)).1,
   (other_events_ignored okEnv "/backup" { Type_ := .Deleted, Object := .certificate prodApi }
      prodApi [{ Type_ := .Added, Object := .certificate stagingWeb }] oldBackupWorld rfl
      (by decide) (by decide)).2.1⟩

/-- C8 as stated fails: an `Error` event is neither Added nor Modified, and it
carries an object that is not a certificate; the type assertion of line 92
panics, so the worker does not go on to the next event (here the addition of
`prodApi`, which is never backed up). -/
theorem error_event_aborts_worker :
    EventType.Error ≠ EventType.Added ∧ EventType.Error ≠ EventType.Modified ∧
    handleEvent okEnv "/backup" { Type_ := .Error, Object := .other } emptyWorld =
      .panicked emptyWorld ∧
    watchLoop okEnv "/backup"
      [{ Type_ := .Error, Object := .other },
       { Type_ := .Added, Object := .certificate prodApi }] emptyWorld =
      .panicked emptyWorld ∧
    watchLoop okEnv "/backup" [{ Type_ := .Added, Object := .certificate prodApi }] emptyWorld ≠
      .panicked emptyWorld := by
  decide

theorem run_events (env : Env) (certLocation : String) (events : List Event) :
    ∀ (w w1 : World), watchLoop env certLocation events w = .returned w1 →
      run env certLocation { world := w, phase := .watching } (events.map .event) =
        { world := w1, phase := .watching } := by
  induction events with
  | nil =>
    intro w w1 h
    simp only [watchLoop, Outcome.returned.injEq] at h
    rw [← h]
    rfl
  | cons e es ih =>
    intro w w1 h
    simp only [watchLoop] at h
    cases he : handleEvent env certLocation e w with
    | returned w2 =>
      rw [he] at h
      simp only at h
      have := ih w2 w1 h
      simp only [run, List.map_cons, List.foldl_cons, step, he] at this ⊢
      exact this
    | panicked w2 =>
      rw [he] at h
      simp at h

theorem run_append (env : Env) (certLocation : String) (p : Process) (a b : List Input) :
    run env certLocation p (a ++ b) = run env certLocation (run env certLocation p a) b := by
  simp [run, List.foldl_append]

/-- Once the worker has returned nothing touches the disk and nothing aborts
the process. -/
theorem run_after_worker (env : Env) (certLocation : String) (inputs : List Input) :
    ∀ p : Process, p.phase = .workerReturned ∨ p.phase = .exited →
      ((run env certLocation p inputs).phase = .workerReturned ∨
        (run env certLocation p inputs).phase = .exited) ∧
      (run env certLocation p inputs).world.files = p.world.files := by
  induction inputs with
  | nil => intro p hp; exact ⟨hp, rfl⟩
  | cons i is ih =>
    intro p hp
    obtain ⟨w, ph⟩ := p
    simp only at hp
    simp only [run, List.foldl_cons] at ih ⊢
    rcases hp with hp | hp
    · subst hp
      cases i with
      | event e => exact ih _ (Or.inl rfl)
      | closed => exact ih _ (Or.inl rfl)
      | signal sig =>
        have := ih { world := onSignal sig w, phase := .exited } (Or.inr rfl)
        simpa [step, onSignal, World.record] using this
    · subst hp
      cases i <;> exact ih _ (Or.inr rfl)

/-- C9, as the code has it. In the Watching state the closing of the event
channel is not fatal: the loop of the worker ends, the goroutine returns, and
the process keeps waiting for the shutdown signal; whatever happens next it
never aborts and never touches the disk, and the signal makes it exit. Fatal
are a watch that could not be set up and an event whose object is not a
certificate. -/
theorem closed_stream_ends_worker (env : Env) (certLocation : String) (w : World) :
    (∀ events w1, watchLoop env certLocation events w = .returned w1 →
      watchWorker env certLocation none events w = .returned w1 ∧
      run env certLocation { world := w, phase := .watching }
        (events.map .event ++ [.closed]) = { world := w1, phase := .workerReturned }) ∧
    (∀ inputs,
      (run env certLocation { world := w, phase := .workerReturned } inputs).phase ≠ .aborted ∧
      (run env certLocation { world := w, phase := .workerReturned } inputs).world.files
        = w.files) ∧
    (∀ sig, step env certLocation { world := w, phase := .workerReturned } (.signal sig) =
      { world := onSignal sig w, phase := .exited }) ∧
    (∀ err events, watchWorker env certLocation (some err) events w = .panicked w) ∧
    (∀ t, step env certLocation { world := w, phase := .watching }
      (.event { Type_ := t, Object := .other }) = { world := w, phase := .aborted }) := by
  refine ⟨?_, ?_, fun _ => rfl, fun _ _ => rfl, fun _ => rfl⟩
  · intro events w1 h
    refine ⟨h, ?_⟩
    rw [run_append, run_events env certLocation events w w1 h]
    rfl
  · intro inputs
    have := run_after_worker env certLocation inputs { world := w, phase := .workerReturned }
      (Or.inl rfl)
    refine ⟨?_, this.2⟩
    rcases this.1 with h | h <;> rw [h] <;> decide

/-- C9 as stated fails: the channel closes before any signal; the worker
returns normally, the process is not aborted but waits, and the signal that
arrives later makes it exit cleanly. -/
theorem closed_stream_not_fatal :
    watchWorker okEnv "/backup" none [] emptyWorld = .returned emptyWorld ∧
    run okEnv "/backup" { world := emptyWorld, phase := .watching } [.closed] =
      { world := emptyWorld, phase := .workerReturned } ∧
    (run okEnv "/backup" { world := emptyWorld, phase := .watching } [.closed]).phase
      ≠ .aborted ∧
    (run okEnv "/backup" { world := emptyWorld, phase := .watching }
      [.closed, .signal "interrupt"]).phase = .exited := by
  decide

/-! ### A failing write is isolated -/

/-- A ready certificate whose secret resolves never ends the loop: whether
`backup` succeeds or fails, `backupCertIfReady` returns and the loop goes on
with the next certificate; a failure of `backup` is logged. -/
theorem backup_failure_isolated (env : Env) (certLocation : String) (c : Certificate)
    (rest : List Certificate) (w : World) (cert certKey : Bytes)
    (hready : isReady c = true)
    (hres : (getCertContent env c.Namespace c.Name w).2 = .ok (cert, certKey)) :
    ∃ w1, backupCertIfReady env c certLocation w = .returned w1 ∧
      backupAll env certLocation (c :: rest) w = backupAll env certLocation rest w1 ∧
      ∀ err, (backup env c certLocation cert certKey
          (w.record (.getCertContent c.Namespace c.Name))).2 = some err →
        w1 = (backup env c certLocation cert certKey
          (w.record (.getCertContent c.Namespace c.Name))).1.record
            (.log (.backupError c.Name c.Namespace err)) := by
  have h := backupCertIfReady_resolved env c certLocation w hready cert certKey hres
  refine ⟨_, h, ?_, ?_⟩
  · simp only [backupAll, h]
  · intro err herr
    rw [herr]

/-- The isolation of a failing write at a concrete input: the key write of
`prodApi` fails, `backupCertIfReady` returns and the loop goes on with
`stagingWeb`. -/
theorem backup_failure_isolated_witness :
    ∃ w1, backupCertIfReady keyWriteFailsEnv prodApi "/backup" emptyWorld = .returned w1 ∧
      backupAll keyWriteFailsEnv "/backup" (prodApi :: [stagingWeb]) emptyWorld =
        backupAll keyWriteFailsEnv "/backup" [stagingWeb] w1 := by
  obtain ⟨w1, h1, h2, _⟩ := backup_failure_isolated keyWriteFailsEnv "/backup" prodApi
    [stagingWeb] emptyWorld (asciiBytes "CERT") (asciiBytes "KEY") (by decide) rfl
  exact ⟨w1, h1, h2⟩

/-! ### C5 and C10: which certificates share a path -/

/-- The part of a timestamp after the year: `%02d%02d_%02d%02d%02d`. -/
theorem stampChars_split (t : Time) :
    stampChars t = fmtInteger true (some 4) t.Year ++
      (fmtInteger true (some 2) t.Month ++ (fmtInteger true (some 2) t.Day ++ '_' ::
        (fmtInteger true (some 2) t.Hour ++ (fmtInteger true (some 2) t.Minute ++
          fmtInteger true (some 2) t.Second)))) := rfl

theorem fmtInteger_two_inj (a b : Nat)
    (h : fmtInteger true (some 2) (a : Int) = fmtInteger true (some 2) (b : Int)) : a = b := by
  have := fmtInteger_inj 2 _ _ h
  exact_mod_cast this

/-- Two names that end in a timestamp and a suffix of four characters are
equal only if the timestamps, the suffixes and what stands before the years
are. -/
theorem stamp_suffix_inj (l1 l2 e1 e2 : List Char) (t1 t2 : Time)
    (hv1 : t1.valid) (hv2 : t2.valid) (he1 : e1.length = 4) (he2 : e2.length = 4)
    (h : l1 ++ (stampChars t1 ++ e1) = l2 ++ (stampChars t2 ++ e2)) :
    l1 ++ fmtInteger true (some 4) t1.Year = l2 ++ fmtInteger true (some 4) t2.Year ∧
      t1.Month = t2.Month ∧ t1.Day = t2.Day ∧ t1.Hour = t2.Hour ∧ t1.Minute = t2.Minute ∧
      t1.Second = t2.Second ∧ e1 = e2 := by
  obtain ⟨a1, a2, a3, a4, a5, a6, a7⟩ := hv1
  obtain ⟨b1, b2, b3, b4, b5, b6, b7⟩ := hv2
  have len : ∀ n : Nat, n < 100 → (fmtInteger true (some 2) (n : Int)).length = 2 :=
    fmtInteger_two_length
  have lM1 := len t1.Month (by omega)
  have lM2 := len t2.Month (by omega)
  have lD1 := len t1.Day (by omega)
  have lD2 := len t2.Day (by omega)
  have lh1 := len t1.Hour (by omega)
  have lh2 := len t2.Hour (by omega)
  have lm1 := len t1.Minute (by omega)
  have lm2 := len t2.Minute (by omega)
  have ls1 := len t1.Second (by omega)
  have ls2 := len t2.Second (by omega)
  rw [stampChars_split, stampChars_split] at h
  simp only [List.append_assoc, List.cons_append] at h
  rw [← List.append_assoc l1, ← List.append_assoc l2] at h
  obtain ⟨hY, h⟩ := List.append_inj' h (by
    simp only [List.length_append, List.length_cons]
    omega)
  obtain ⟨hM, h⟩ := List.append_inj h (by omega)
  obtain ⟨hD, h⟩ := List.append_inj h (by omega)
  simp only [List.cons.injEq, true_and] at h
  obtain ⟨hh, h⟩ := List.append_inj h (by omega)
  obtain ⟨hm, h⟩ := List.append_inj h (by omega)
  obtain ⟨hs, he⟩ := List.append_inj h (by omega)
  exact ⟨hY, fmtInteger_two_inj _ _ hM, fmtInteger_two_inj _ _ hD, fmtInteger_two_inj _ _ hh,
    fmtInteger_two_inj _ _ hm, fmtInteger_two_inj _ _ hs, he⟩

theorem Time.eq_of_fields (t1 t2 : Time) (hY : t1.Year = t2.Year) (hM : t1.Month = t2.Month)
    (hD : t1.Day = t2.Day) (hh : t1.Hour = t2.Hour) (hm : t1.Minute = t2.Minute)
    (hs : t1.Second = t2.Second) : t1 = t2 := by
  cases t1; cases t2
  simp only [Time.mk.injEq]
  exact ⟨hY, hM, hD, hh, hm, hs⟩

/-- C5. For every two certificate records with the same namespace and the same
name whose creation timestamps differ as calendar timestamps, the cert path
and the key path `backup` computes for the first are both different from the
cert path and the key path it computes for the second, under the same base
directory. -/
theorem timestamps_give_disjoint_paths (c1 c2 : Certificate) (certLocation : String)
    (hns : c1.Namespace = c2.Namespace) (hname : c1.Name = c2.Name)
    (hv1 : c1.CreationTimestamp.valid) (hv2 : c2.CreationTimestamp.valid)
    (hts : c1.CreationTimestamp ≠ c2.CreationTimestamp) :
    fpathCert c1 certLocation ≠ fpathCert c2 certLocation ∧
    fpathCert c1 certLocation ≠ fpathKey c2 certLocation ∧
    fpathKey c1 certLocation ≠ fpathCert c2 certLocation ∧
    fpathKey c1 certLocation ≠ fpathKey c2 certLocation := by
  obtain ⟨pre, hpre⟩ := fpath_shape certLocation c2.Namespace c2.Name
  obtain ⟨p1, p2⟩ := hpre c1 hns hname
  obtain ⟨q1, q2⟩ := hpre c2 rfl rfl
  have key : ∀ e1 e2 : List Char, e1.length = 4 → e2.length = 4 →
      pre ++ (stampChars c1.CreationTimestamp ++ e1) =
        pre ++ (stampChars c2.CreationTimestamp ++ e2) → False := by
    intro e1 e2 he1 he2 h
    obtain ⟨hY, hM, hD, hh, hm, hs, -⟩ := stamp_suffix_inj [] [] e1 e2 _ _ hv1 hv2 he1 he2
      (List.append_cancel_left h)
    exact hts (Time.eq_of_fields _ _ (fmtInteger_inj 4 _ _ hY) hM hD hh hm hs)
  refine ⟨?_, ?_, ?_, ?_⟩
  · intro h
    have := congrArg String.data h
    rw [p1, q1] at this
    exact key ['.', 'c', 'r', 't'] ['.', 'c', 'r', 't'] rfl rfl this
  · intro h
    have := congrArg String.data h
    rw [p1, q2] at this
    exact key ['.', 'c', 'r', 't'] ['.', 'k', 'e', 'y'] rfl rfl this
  · intro h
    have := congrArg String.data h
    rw [p2, q1] at this
    exact key ['.', 'k', 'e', 'y'] ['.', 'c', 'r', 't'] rfl rfl this
  · intro h
    have := congrArg String.data h
    rw [p2, q2] at this
    exact key ['.', 'k', 'e', 'y'] ['.', 'k', 'e', 'y'] rfl rfl this

/-- C5 at a concrete input: `prodApi` and the same certificate created one
second later. -/
theorem timestamps_give_disjoint_paths_witness :
    fpathCert prodApi "/backup" ≠
      fpathCert { prodApi with CreationTimestamp :=
        { Year := 2024, Month := 1, Day := 2, Hour := 3, Minute := 4, Second := 6 } } "/backup" ∧
    fpathKey prodApi "/backup" ≠
      fpathKey { prodApi with CreationTimestamp :=
        { Year := 2024, Month := 1, Day := 2, Hour := 3, Minute := 4, Second := 6 } } "/backup" := by
  have h := timestamps_give_disjoint_paths prodApi
    { prodApi with CreationTimestamp :=
        { Year := 2024, Month := 1, Day := 2, Hour := 3, Minute := 4, Second := 6 } }
    "/backup" rfl rfl (by decide) (by decide) (by decide)
  exact ⟨h.1, h.2.2.2⟩

theorem append_cons_inj_of_not_mem (x : Char) (a : List Char) :
    ∀ (a2 b b2 : List Char), x ∉ a → x ∉ a2 → a ++ x :: b = a2 ++ x :: b2 → a = a2 ∧ b = b2 := by
  induction a with
  | nil =>
    intro a2 b b2 _ h2 h
    cases a2 with
    | nil => simpa using h
    | cons y ys =>
      simp only [List.nil_append, List.cons_append, List.cons.injEq] at h
      exact absurd (by simp [h.1]) h2
  | cons y ys ih =>
    intro a2 b b2 h1 h2 h
    cases a2 with
    | nil =>
      simp only [List.nil_append, List.cons_append, List.cons.injEq] at h
      exact absurd (by simp [h.1]) h1
    | cons z zs =>
      simp only [List.cons_append, List.cons.injEq] at h
      obtain ⟨r1, r2⟩ := ih zs b b2 (fun hm => h1 (List.mem_cons_of_mem _ hm))
        (fun hm => h2 (List.mem_cons_of_mem _ hm)) h.2
      exact ⟨by rw [h.1, r1], r2⟩

theorem fmtInteger_no_underscore (w : Nat) (v : Int) : '_' ∉ fmtInteger true (some w) v := by
  intro hm
  rcases fmtInteger_all w v _ hm with h1 | h1
  · exact absurd h1 (by decide)
  · exact absurd h1 (by decide)

/-- When namespace and name hold no separator, both paths end in the whole
file name, behind a prefix that only depends on the directory. -/
theorem fpath_shape_plain (dir : String) :
    ∃ pre : List Char, ∀ c : Certificate, '/' ∉ c.Namespace.data → '/' ∉ c.Name.data →
      (fpathCert c dir).data = pre ++ (certFname c).data ∧
      (fpathKey c dir).data = pre ++ (certKeyFname c).data := by
  obtain ⟨pre, hpre⟩ := filepathJoin_append dir []
  refine ⟨pre, ?_⟩
  intro c h1 h2
  have hs : ∀ e : List Char, '/' ∉ e →
      '/' ∉ c.Namespace.data ++ '_' :: (c.Name.data ++ '_' ::
        (stampChars c.CreationTimestamp ++ e)) := by
    intro e he hm
    simp only [List.mem_append, List.mem_cons] at hm
    rcases hm with h | h | h | h | h | h
    · exact h1 h
    · exact absurd h (by decide)
    · exact h2 h
    · exact absurd h (by decide)
    · exact stampChars_no_slash _ h
    · exact he h
  have hl : ∀ e : List Char, 3 ≤ (c.Namespace.data ++ '_' :: (c.Name.data ++ '_' ::
        (stampChars c.CreationTimestamp ++ e))).length := by
    intro e
    have := stampChars_length c.CreationTimestamp
    simp only [List.length_append, List.length_cons]
    omega
  constructor
  · have := hpre (certFname c).data (by rw [certFname_data]; exact hs _ (by decide))
      (by rw [certFname_data]; exact hl _)
    rw [← this]
    rfl
  · have := hpre (certKeyFname c).data (by rw [certKeyFname_data]; exact hs _ (by decide))
      (by rw [certKeyFname_data]; exact hl _)
    rw [← this]
    rfl

/-- When namespace and name hold neither `_` nor `/`, a file name determines
namespace, name, timestamp and suffix. -/
theorem fname_inj (c1 c2 : Certificate) (e1 e2 : List Char)
    (he1 : e1.length = 4) (he2 : e2.length = 4)
    (hu1 : '_' ∉ c1.Namespace.data) (hu2 : '_' ∉ c1.Name.data)
    (hu3 : '_' ∉ c2.Namespace.data) (hu4 : '_' ∉ c2.Name.data)
    (hv1 : c1.CreationTimestamp.valid) (hv2 : c2.CreationTimestamp.valid)
    (h : c1.Namespace.data ++ '_' :: (c1.Name.data ++ '_' ::
        (stampChars c1.CreationTimestamp ++ e1)) =
      c2.Namespace.data ++ '_' :: (c2.Name.data ++ '_' ::
        (stampChars c2.CreationTimestamp ++ e2))) :
    c1.Namespace = c2.Namespace ∧ c1.Name = c2.Name ∧
      c1.CreationTimestamp = c2.CreationTimestamp ∧ e1 = e2 := by
  obtain ⟨hns, h⟩ := append_cons_inj_of_not_mem '_' _ _ _ _ hu1 hu3 h
  obtain ⟨hname, h⟩ := append_cons_inj_of_not_mem '_' _ _ _ _ hu2 hu4 h
  obtain ⟨hY, hM, hD, hh, hm, hs, he⟩ := stamp_suffix_inj [] [] e1 e2 _ _ hv1 hv2 he1 he2 h
  exact ⟨String.ext hns, String.ext hname,
    Time.eq_of_fields _ _ (fmtInteger_inj 4 _ _ hY) hM hD hh hm hs, he⟩

/-- C10, as the code has it. The file-name scheme is injective on certificate
identities that contain neither `_` nor `/`: two certificates whose namespaces
and names hold neither character and whose cert paths (or key paths) under the
same base directory coincide have the same namespace, name and creation
timestamp, and a cert path never equals a key path. Without the condition on
`_` two distinct (namespace, name) pairs with the same timestamp map to the
same paths. -/
theorem paths_injective_on_plain_names :
    (∀ (c1 c2 : Certificate) (certLocation : String),
      '_' ∉ c1.Namespace.data → '_' ∉ c1.Name.data →
      '_' ∉ c2.Namespace.data → '_' ∉ c2.Name.data →
      '/' ∉ c1.Namespace.data → '/' ∉ c1.Name.data →
      '/' ∉ c2.Namespace.data → '/' ∉ c2.Name.data →
      c1.CreationTimestamp.valid → c2.CreationTimestamp.valid →
      (c1.Namespace ≠ c2.Namespace ∨ c1.Name ≠ c2.Name ∨
        c1.CreationTimestamp ≠ c2.CreationTimestamp) →
      fpathCert c1 certLocation ≠ fpathCert c2 certLocation ∧
      fpathKey c1 certLocation ≠ fpathKey c2 certLocation ∧
      fpathCert c1 certLocation ≠ fpathKey c2 certLocation ∧
      fpathKey c1 certLocation ≠ fpathCert c2 certLocation) ∧
    (∃ c1 c2 : Certificate,
      (c1.Namespace, c1.Name) ≠ (c2.Namespace, c2.Name) ∧
      c1.CreationTimestamp = c2.CreationTimestamp ∧
      fpathCert c1 "/backup" = fpathCert c2 "/backup" ∧
      fpathKey c1 "/backup" = fpathKey c2 "/backup") := by
  constructor
  · intro c1 c2 dir hu1 hu2 hu3 hu4 hs1 hs2 hs3 hs4 hv1 hv2 hdiff
    obtain ⟨pre, hpre⟩ := fpath_shape_plain dir
    obtain ⟨p1, p2⟩ := hpre c1 hs1 hs2
    obtain ⟨q1, q2⟩ := hpre c2 hs3 hs4
    rw [certFname_data] at p1 q1
    rw [certKeyFname_data] at p2 q2
    have key : ∀ e1 e2 : List Char, e1.length = 4 → e2.length = 4 →
        pre ++ (c1.Namespace.data ++ '_' :: (c1.Name.data ++ '_' ::
          (stampChars c1.CreationTimestamp ++ e1))) =
        pre ++ (c2.Namespace.data ++ '_' :: (c2.Name.data ++ '_' ::
          (stampChars c2.CreationTimestamp ++ e2))) → False := by
      intro e1 e2 he1 he2 h
      obtain ⟨r1, r2, r3, -⟩ := fname_inj c1 c2 e1 e2 he1 he2 hu1 hu2 hu3 hu4 hv1 hv2
        (List.append_cancel_left h)
      rcases hdiff with hd | hd | hd
      · exact hd r1
      · exact hd r2
      · exact hd r3
    refine ⟨?_, ?_, ?_, ?_⟩
    · intro h
      have := congrArg String.data h
      rw [p1, q1] at this
      exact key ['.', 'c', 'r', 't'] ['.', 'c', 'r', 't'] rfl rfl this
    · intro h
      have := congrArg String.data h
      rw [p2, q2] at this
      exact key ['.', 'k', 'e', 'y'] ['.', 'k', 'e', 'y'] rfl rfl this
    · intro h
      have := congrArg String.data h
      rw [p1, q2] at this
      exact key ['.', 'c', 'r', 't'] ['.', 'k', 'e', 'y'] rfl rfl this
    · intro h
      have := congrArg String.data h
      rw [p2, q1] at this
      exact key ['.', 'k', 'e', 'y'] ['.', 'c', 'r', 't'] rfl rfl this
  · exact ⟨certNamed "a_b" "c", certNamed "a" "b_c", by decide, rfl, by decide, by decide⟩

/-- C10 at a concrete input: `prod/api` and `staging/web` never share a path. -/
theorem paths_injective_on_plain_names_witness :
    fpathCert prodApi "/backup" ≠ fpathCert stagingWeb "/backup" ∧
    fpathKey prodApi "/backup" ≠ fpathKey stagingWeb "/backup" := by
  have h := paths_injective_on_plain_names.1 prodApi stagingWeb "/backup"
    (by decide) (by decide) (by decide) (by decide) (by decide) (by decide) (by decide)
    (by decide) (by decide) (by decide) (Or.inl (by decide))
  exact ⟨h.1, h.2.1⟩

/-- C10 as stated fails: the namespaces `a//b` and `a/b` hold no `_` and
differ, name and timestamp are the same, and yet `filepath.Join` cleans both
names to the same cert path and the same key path. -/
theorem slash_names_share_paths :
    '_' ∉ (certNamed "a//b" "c").Namespace.data ∧ '_' ∉ (certNamed "a//b" "c").Name.data ∧
    '_' ∉ (certNamed "a/b" "c").Namespace.data ∧ '_' ∉ (certNamed "a/b" "c").Name.data ∧
    (certNamed "a//b" "c").Namespace ≠ (certNamed "a/b" "c").Namespace ∧
    fpathCert (certNamed "a//b" "c") "/backup" = "/backup/a/b_c_20240102_030405.crt" ∧
    fpathCert (certNamed "a/b" "c") "/backup" = "/backup/a/b_c_20240102_030405.crt" ∧
    fpathKey (certNamed "a//b" "c") "/backup" = fpathKey (certNamed "a/b" "c") "/backup" := by
  decide

end CertBackup
